import Mathlib

/-!
# BlenderWebUI: the WebView2 overlay control

A shallow embedding of `src/WebView2Control/src/BlenderWebView2.cpp`.

* A `char` / `wchar_t` of the program is a `Char`; a `std::string`, `std::wstring` or
  `std::span<const char>` is a `List Char`.
* An `int` is an `Int`; `std::stoi` is the only place where values enter, and it
  refuses whatever lies outside `[INT_MIN, INT_MAX]`.
* A C++ exception is the `none` of an `Option`.
* Win32 windows are records holding what the program reads back from them
  (geometry, extended style) together with a log of the writes performed on them.
-/

namespace BlenderWebUI

/-! ## Constants -/

/-- Source: `constexpr int LAYOUT_PREFIX_LENGTH = 7;` -/
def LAYOUT_PREFIX_LENGTH : Nat := 7

/-- Source: `constexpr int DEFAULT_WINDOW_X = 100;` -/
def DEFAULT_WINDOW_X : Int := 100

/-- Source: `constexpr int DEFAULT_WINDOW_Y = 100;` -/
def DEFAULT_WINDOW_Y : Int := 100

/-- Source: `constexpr int DEFAULT_WINDOW_WIDTH = 800;` -/
def DEFAULT_WINDOW_WIDTH : Int := 800

/-- Source: `constexpr int DEFAULT_WINDOW_HEIGHT = 600;` -/
def DEFAULT_WINDOW_HEIGHT : Int := 600

/-- Source: `constexpr int SSCANF_EXPECTED_ARGS = 4;` -/
def SSCANF_EXPECTED_ARGS : Nat := 4

/-- Source: `constexpr UINT POSITION_TIMER_ID = 1;` (BlenderWebView2.h) -/
def POSITION_TIMER_ID : Nat := 1

/-- Largest value of the 32-bit `int`. -/
def INT_MAX : Int := 2147483647

/-- Smallest value of the 32-bit `int`. -/
def INT_MIN : Int := -2147483648

/-- The extended window style bit `WS_EX_TRANSPARENT` of `WinUser.h` (`0x00000020L`). -/
def WS_EX_TRANSPARENT : Nat := 0x20

/-! ## `std::stoi` -/

/-- The `isspace` of the "C" locale: space, `\t`, `\n`, `\v`, `\f`, `\r`. -/
def isspace (c : Char) : Bool :=
  c == ' ' || c == '\t' || c == '\n' || c.toNat == 11 || c.toNat == 12 || c == '\r'

/-- Value of a run of decimal digits, most significant first. -/
def digitsValue (ds : List Char) : Nat :=
  ds.foldl (fun acc c => acc * 10 + (c.toNat - 48)) 0

/-- The optional sign that `strtol` accepts: `(negative, rest)`. -/
def takeSign : List Char → Bool × List Char
  | [] => (false, [])
  | c :: r => if c = '-' then (true, r) else if c = '+' then (false, r) else (false, c :: r)

/-- Source: `std::stoi(s)` in base 10: leading white space is skipped, an optional sign is read,
then the longest run of decimal digits; what follows the digits is ignored.
`none` stands for the exception: `std::invalid_argument` when there is no digit,
`std::out_of_range` when the value does not fit an `int`. -/
def stoi (s : List Char) : Option Int :=
  let signed := takeSign (s.dropWhile isspace)
  let ds := signed.2.takeWhile Char.isDigit
  if ds = [] then none
  else
    let v : Int := if signed.1 then -(digitsValue ds : Int) else (digitsValue ds : Int)
    if v < INT_MIN ∨ INT_MAX < v then none else some v

/-! ## `std::istringstream` and `std::getline` -/

/-- An input string stream: the characters not yet read and the `eofbit`. -/
structure IStream where
  /-- characters not yet extracted -/
  rest : List Char
  /-- the `eofbit`: set once an extraction has run into the end -/
  eof : Bool
  deriving DecidableEq, Repr

/-- Source: `std::getline(iss, token, delim)`. With `eofbit` set the call fails at once. Otherwise
characters are extracted up to the delimiter, which is consumed and not stored; running
into the end sets `eofbit`, and the call fails when nothing at all was extracted.
`none` is the failed call (the stream converts to `false`). -/
def getline (iss : IStream) (delim : Char) : Option (List Char × IStream) :=
  if iss.eof then none
  else
    let token := iss.rest.takeWhile (fun c => c != delim)
    match iss.rest.dropWhile (fun c => c != delim) with
    | [] => if token = [] then none else some (token, { rest := [], eof := true })
    | _ :: r => some (token, { rest := r, eof := false })

/-! ## Strings -/

/-- Index of the first occurrence of `ch` in the text, if there is one. -/
def indexOfChar (ch : Char) : List Char → Option Nat
  | [] => none
  | c :: r =>
    if c = ch then some 0
    else
      match indexOfChar ch r with
      | some i => some (i + 1)
      | none => none

/-- Source: `s.find(ch, pos)`: the first index `>= pos` holding `ch`; `none` is `npos`. -/
def find (s : List Char) (ch : Char) (pos : Nat) : Option Nat :=
  match indexOfChar ch (s.drop pos) with
  | some i => some (pos + i)
  | none => none

/-- Source: `s.substr(pos, count)` for `pos <= s.size()`. -/
def substr (s : List Char) (pos count : Nat) : List Char :=
  (s.drop pos).take count

/-- Source: `s.substr(pos)` for `pos <= s.size()`: everything from `pos` on. -/
def substrFrom (s : List Char) (pos : Nat) : List Char :=
  s.drop pos

/-! ## Decoding a layout message (`ProcessLayoutMessage`, lines 173-212 and 220-221) -/

/-- How the token loop of `ProcessLayoutMessage` ends. -/
inductive LoopResult where
  /-- Exit: `std::stoi` threw and the `catch` returned from the function -/
  | threw
  /-- the `while` condition became false with these `values` -/
  | done (values : List Int)
  deriving DecidableEq, Repr

/-- The loop
`while (std::getline(iss, token, ',') && values.size() < SSCANF_EXPECTED_ARGS)
   { try { values.push_back(std::stoi(token)); } catch (...) { return; } }`.
The first argument bounds the number of evaluations of the loop condition; `none` means
the bound was reached (`readValues_fuel` shows that five evaluations always suffice). -/
def readValues : Nat → IStream → List Int → Option LoopResult
  | 0, _, _ => none
  | fuel + 1, iss, values =>
    match getline iss ',' with
    | none => some (.done values)
    | some (token, iss') =>
      if values.length < SSCANF_EXPECTED_ARGS then
        match stoi token with
        | none => some .threw
        | some v => readValues fuel iss' (values ++ [v])
      else some (.done values)

/-- What `ProcessLayoutMessage` extracts from a buffer it accepts. -/
structure LayoutFrame where
  /-- Source: `blenderX = values[0]` -/
  blenderX : Int
  /-- Source: `blenderY = values[1]` -/
  blenderY : Int
  /-- Source: `blenderWidth = values[2]` -/
  blenderWidth : Int
  /-- Source: `blenderHeight = values[3]` -/
  blenderHeight : Int
  /-- Source: `jsonData = bufferStr.substr(pipePos + 1)` -/
  jsonData : List Char
  deriving DecidableEq, Repr

/-- The parsing steps of `ProcessLayoutMessage`: every `return` before the call of
`UpdateOverlayPosition` is a `none`. `jsonData` depends on the buffer and `pipePos` only,
so it is computed here although the source computes it after the call. -/
def decodeLayoutMessage (buffer : List Char) : Option LayoutFrame :=
  if buffer.length < LAYOUT_PREFIX_LENGTH ∨
      buffer.take LAYOUT_PREFIX_LENGTH ≠ "LAYOUT:".toList then none
  else
    match find buffer '|' LAYOUT_PREFIX_LENGTH with
    | none => none
    | some pipePos =>
      let layoutData := substr buffer LAYOUT_PREFIX_LENGTH (pipePos - LAYOUT_PREFIX_LENGTH)
      match readValues (SSCANF_EXPECTED_ARGS + 1) { rest := layoutData, eof := false } [] with
      | some (.done [v0, v1, v2, v3]) =>
        some { blenderX := v0, blenderY := v1, blenderWidth := v2, blenderHeight := v3,
               jsonData := substrFrom buffer (pipePos + 1) }
      | _ => none

/-! ## Windows -/

/-- The Win32 `RECT`. -/
structure RECT where
  /-- x of the left edge -/
  left : Int
  /-- y of the top edge -/
  top : Int
  /-- x just past the right edge -/
  right : Int
  /-- y just past the bottom edge -/
  bottom : Int
  deriving DecidableEq, Repr

/-- The Win32 `POINT`. -/
structure POINT where
  /-- horizontal coordinate -/
  x : Int
  /-- vertical coordinate -/
  y : Int
  deriving DecidableEq, Repr

/-- The overlay window (`GetMainWindow()`, a frameless `WS_POPUP` window): its screen
position and size, its extended style bits (a 32-bit pattern), and the writes done on it. -/
structure OverlayWindow where
  /-- screen x of the window -/
  x : Int
  /-- screen y of the window -/
  y : Int
  /-- width of the window -/
  width : Int
  /-- height of the window -/
  height : Int
  /-- Source: `GetWindowLong(hWnd, GWL_EXSTYLE)` -/
  exStyle : Nat
  /-- arguments `(X, Y, cx, cy)` of the `SetWindowPos` calls so far, oldest first -/
  setWindowPosCalls : List (Int × Int × Int × Int)
  /-- values written by the `SetWindowLong(hWnd, GWL_EXSTYLE, _)` calls so far -/
  setWindowLongCalls : List Nat
  deriving DecidableEq, Repr

/-- The host (Blender) window as the program observes it. -/
structure HostWindow where
  /-- Source: `ClientToScreen(blender, {0, 0})`: the client-area origin in screen coordinates -/
  clientTopLeft : POINT
  /-- Source: `GetClientRect(blender, _)`: `right` and `bottom` are the client width and height -/
  clientRect : RECT
  deriving DecidableEq, Repr

/-- Source: `SetWindowPos(overlay, nullptr, X, Y, cx, cy, SWP_NOZORDER | SWP_NOACTIVATE)`. -/
def SetWindowPos (overlay : OverlayWindow) (X Y cx cy : Int) : OverlayWindow :=
  { overlay with
    x := X, y := Y, width := cx, height := cy,
    setWindowPosCalls := overlay.setWindowPosCalls ++ [(X, Y, cx, cy)] }

/-- Source: `SetWindowLong(hWnd, GWL_EXSTYLE, style)`. -/
def SetWindowLong (hWnd : OverlayWindow) (style : Nat) : OverlayWindow :=
  { hWnd with exStyle := style, setWindowLongCalls := hWnd.setWindowLongCalls ++ [style] }

/-- Source: `UpdateOverlayPosition(overlay, blender, positionX, positionY, width, height)`.
A null handle is `none`. The result is the returned `bool` and the overlay afterwards. -/
def UpdateOverlayPosition (overlay : Option OverlayWindow) (blender : Option HostWindow)
    (positionX positionY width height : Int) : Bool × Option OverlayWindow :=
  match overlay, blender with
  | some ov, some bl =>
    if width ≤ 0 ∨ height ≤ 0 then (false, overlay)
    else
      let blenderClientRect := bl.clientRect
      let blenderClientTopLeft := bl.clientTopLeft
      if positionX ≠ blenderClientTopLeft.x ∨ positionY ≠ blenderClientTopLeft.y ∨
          width ≠ blenderClientRect.right ∨ height ≠ blenderClientRect.bottom then
        (true, some (SetWindowPos ov positionX positionY width height))
      else (false, overlay)
  | _, _ => (false, overlay)

/-! ## The input-passthrough poll (`HandleTimerMessage`) -/

/-- The Win32 `PtInRect`: a point on the left or top side is inside, a point on the right
or bottom side is outside. -/
def PtInRect (rect : RECT) (point : POINT) : Bool :=
  decide (rect.left ≤ point.x) && decide (point.x < rect.right) &&
    decide (rect.top ≤ point.y) && decide (point.y < rect.bottom)

/-- Source: `ScreenToClient(hWnd, &point)` for the frameless overlay, whose client area starts at
the window position. -/
def ScreenToClient (hWnd : OverlayWindow) (point : POINT) : POINT :=
  { x := point.x - hWnd.x, y := point.y - hWnd.y }

/-- The loop of `HandleTimerMessage` that computes `mouseOverClickable`:
`for (rect : clickableRects) if (PtInRect(&rect, point) != 0) { ... = true; break; }`. -/
def mouseOverClickable : List RECT → POINT → Bool
  | [], _ => false
  | rect :: rest, point => if PtInRect rect point then true else mouseOverClickable rest point

/-- The `~value` of a 32-bit `LONG`, as a bit pattern. -/
def bitNot32 (value : Nat) : Nat := 0xFFFFFFFF ^^^ value

/-- Source: `HandleTimerMessage(hWnd, wParam)`; `cursor` is what `GetCursorPos` reports. -/
def HandleTimerMessage (clickableRects : List RECT) (hWnd : OverlayWindow) (wParam : Nat)
    (cursor : POINT) : OverlayWindow :=
  if wParam ≠ POSITION_TIMER_ID then hWnd
  else
    let point := ScreenToClient hWnd cursor
    let exStyle := hWnd.exStyle
    if mouseOverClickable clickableRects point then
      if exStyle &&& WS_EX_TRANSPARENT ≠ 0 then
        SetWindowLong hWnd (exStyle &&& bitNot32 WS_EX_TRANSPARENT)
      else hWnd
    else
      if exStyle &&& WS_EX_TRANSPARENT = 0 then
        SetWindowLong hWnd (exStyle ||| WS_EX_TRANSPARENT)
      else hWnd

/-- The timer ticks of the event loop, one per cursor position, oldest first. -/
def runTicks (clickableRects : List RECT) (hWnd : OverlayWindow) : List POINT → OverlayWindow
  | [] => hWnd
  | cursor :: later =>
    runTicks clickableRects (HandleTimerMessage clickableRects hWnd POSITION_TIMER_ID cursor) later

/-- The overlay lets input through: `WS_EX_TRANSPARENT` is set. -/
def isTransparent (hWnd : OverlayWindow) : Bool :=
  hWnd.exStyle &&& WS_EX_TRANSPARENT != 0

/-! ## `ParseRects` -/

/-- The four capture groups of one match of `\[(\d+),(\d+),(\d+),(\d+)\]`. -/
structure RectMatch where
  /-- Source: `match[1]` -/
  g1 : List Char
  /-- Source: `match[2]` -/
  g2 : List Char
  /-- Source: `match[3]` -/
  g3 : List Char
  /-- Source: `match[4]` -/
  g4 : List Char
  deriving DecidableEq, Repr

/-- One literal character of the pattern at the head of the text. -/
def matchChar (c : Char) : List Char → Option (List Char)
  | [] => none
  | d :: r => if d = c then some r else none

/-- The group `(\d+)` at the head of the text: the digits and what follows them. The
group is always followed by a literal that is no digit, so only the longest run can
lead to a match. -/
def matchDigits (s : List Char) : Option (List Char × List Char) :=
  let ds := s.takeWhile Char.isDigit
  if ds = [] then none else some (ds, s.dropWhile Char.isDigit)

/-- A match of `\[(\d+),(\d+),(\d+),(\d+)\]` that starts at the head of the text: the
groups and the text after the match. -/
def matchRectAt (s : List Char) : Option (RectMatch × List Char) :=
  match matchChar '[' s with
  | none => none
  | some s1 =>
  match matchDigits s1 with
  | none => none
  | some (g1, s2) =>
  match matchChar ',' s2 with
  | none => none
  | some s3 =>
  match matchDigits s3 with
  | none => none
  | some (g2, s4) =>
  match matchChar ',' s4 with
  | none => none
  | some s5 =>
  match matchDigits s5 with
  | none => none
  | some (g3, s6) =>
  match matchChar ',' s6 with
  | none => none
  | some s7 =>
  match matchDigits s7 with
  | none => none
  | some (g4, s8) =>
  match matchChar ']' s8 with
  | none => none
  | some s9 => some ({ g1 := g1, g2 := g2, g3 := g3, g4 := g4 }, s9)

/-- The matches a `std::wsregex_iterator` walks through: the leftmost match, then the
leftmost match in what follows it, and so on. Every step consumes a character, so a
bound equal to the length of the text is never exhausted (`regexMatches_fuel`). -/
def regexMatches : Nat → List Char → List RectMatch
  | 0, _ => []
  | _ + 1, [] => []
  | fuel + 1, c :: cs =>
    match matchRectAt (c :: cs) with
    | some (m, rest) => m :: regexMatches fuel rest
    | none => regexMatches fuel cs

/-- An `int` addition, wrapping to 32 bits. -/
def addInt32 (a b : Int) : Int :=
  (a + b + 2147483648) % 4294967296 - 2147483648

/-- The lambda of `ParseRects`: four `std::stoi` and the `RECT`; `none` when one throws. -/
def rectOfMatch (m : RectMatch) : Option RECT :=
  match stoi m.g1, stoi m.g2, stoi m.g3, stoi m.g4 with
  | some positionX, some positionY, some width, some height =>
    some { left := positionX, top := positionY,
           right := addInt32 positionX width, bottom := addInt32 positionY height }
  | _, _, _, _ => none

/-- Source: `std::ranges::copy(transformed, std::back_inserter(rects))`: the matches are turned
into rects in order; an exception of the lambda leaves the function. -/
def copyRects : List RectMatch → Option (List RECT)
  | [] => some []
  | m :: ms =>
    match rectOfMatch m with
    | none => none
    | some r =>
      match copyRects ms with
      | none => none
      | some rs => some (r :: rs)

/-- Source: `ParseRects(input)`; `none` is an exception thrown by `std::stoi`, which nothing in
`ParseRects` catches. -/
def ParseRects (input : List Char) : Option (List RECT) :=
  if input = [] then some []
  else copyRects (regexMatches input.length input)

/-! ## The start-up argument (`WinMain`, lines 282-302) -/

/-- The loop `for (int *value : values)` over the pointers to `positionX`, `positionY`,
`width`, `height`. `remaining` counts the pointers still to visit, so `value` is
`values.back()` exactly when `remaining = 1`; `index` is the position of `value`.
`none` is an exception of `std::stoi`, which nothing in `WinMain` catches. -/
def initialGeometryLoop : Nat → Nat → List Char → Nat → List Int → Option (List Int)
  | 0, _, _, _, vals => some vals
  | remaining + 1, index, args, pos, vals =>
    match find args ',' pos with
    | none =>
      if remaining ≠ 0 then some vals
      else
        match stoi (substrFrom args pos) with
        | none => none
        | some v => initialGeometryLoop remaining (index + 1) args 0 (vals.set index v)
    | some nextPos =>
      match stoi (substr args pos (nextPos - pos)) with
      | none => none
      | some v =>
        initialGeometryLoop remaining (index + 1) args (nextPos + 1) (vals.set index v)

/-- The initial geometry computed by `WinMain`: the defaults, overwritten from `__argv[1]`
when `__argc > 1`. The result lists `positionX`, `positionY`, `width`, `height`. -/
def initialGeometry (argv1 : Option (List Char)) : Option (List Int) :=
  let defaults :=
    [DEFAULT_WINDOW_X, DEFAULT_WINDOW_Y, DEFAULT_WINDOW_WIDTH, DEFAULT_WINDOW_HEIGHT]
  match argv1 with
  | none => some defaults
  | some args => initialGeometryLoop 4 0 args 0 defaults

/-! ## The layout relay (`ProcessLayoutMessage`, `HandleLayoutUpdateMessage`) -/

/-- Source: `Utf8ToWide`; the argument `MultiByteToWideChar` is the Win32 conversion of a
nonempty UTF-8 text, whose empty result is the `size <= 0` case. -/
def Utf8ToWide (MultiByteToWideChar : List Char → List Char) (utf8 : List Char) : List Char :=
  if utf8 = [] then [] else MultiByteToWideChar utf8

/-- A message in the queue of the event loop. -/
inductive Message where
  /-- Source: `WM_LAYOUT_UPDATE`; its `lParam` is `currentLayoutMessage.c_str()`, the address of
  the character storage of the `thread_local` string, not a copy of the text -/
  | WM_LAYOUT_UPDATE
  deriving DecidableEq, Repr

/-- The state `ProcessLayoutMessage` and the event loop share. -/
structure World where
  /-- Source: `GetMainWindow()`; `none` is `nullptr` -/
  mainWindow : Option OverlayWindow
  /-- Source: `FindBlenderWindow()`; `none` is `nullptr` -/
  blenderWindow : Option HostWindow
  /-- the `thread_local std::wstring currentLayoutMessage` of the pipe thread -/
  currentLayoutMessage : List Char
  /-- messages posted with `PostMessage` and not yet dispatched, oldest first -/
  messageQueue : List Message
  /-- arguments of the calls of `UpdateOverlayPosition` made by `ProcessLayoutMessage` -/
  updateOverlayPositionCalls : List (Int × Int × Int × Int)
  /-- Source: `GetWebBrowser().webviewController` and its `ICoreWebView2` are available -/
  webviewReady : Bool
  /-- the texts handed to `PostWebMessageAsString`, oldest first -/
  webMessages : List (List Char)
  deriving DecidableEq, Repr

/-- Source: `ProcessLayoutMessage(buffer)`. -/
def ProcessLayoutMessage (MultiByteToWideChar : List Char → List Char) (w : World)
    (buffer : List Char) : World :=
  match decodeLayoutMessage buffer with
  | none => w
  | some frame =>
    let called : World :=
      { w with updateOverlayPositionCalls := w.updateOverlayPositionCalls ++
          [(frame.blenderX, frame.blenderY, frame.blenderWidth, frame.blenderHeight)] }
    let result := UpdateOverlayPosition w.mainWindow w.blenderWindow
      frame.blenderX frame.blenderY frame.blenderWidth frame.blenderHeight
    if result.1 = false then { called with mainWindow := result.2 }
    else
      let wideJson := Utf8ToWide MultiByteToWideChar frame.jsonData
      { called with
        mainWindow := result.2,
        currentLayoutMessage := wideJson,
        messageQueue := called.messageQueue ++ [Message.WM_LAYOUT_UPDATE] }

/-- The text a `const wchar_t *` into `currentLayoutMessage` designates when it is read:
the current characters of that string up to the first NUL. -/
def readCStr (w : World) : List Char :=
  w.currentLayoutMessage.takeWhile (fun c => c != Char.ofNat 0)

/-- Source: `HandleLayoutUpdateMessage(lParam)` for the `lParam` of a `WM_LAYOUT_UPDATE`. -/
def HandleLayoutUpdateMessage (w : World) : World :=
  if w.webviewReady then { w with webMessages := w.webMessages ++ [readCStr w] } else w

/-- One turn of the event loop: `GetMessage` takes the oldest message and `WndProc`
handles it. -/
def dispatchMessage (w : World) : World :=
  match w.messageQueue with
  | [] => w
  | Message.WM_LAYOUT_UPDATE :: later => HandleLayoutUpdateMessage { w with messageQueue := later }

/-! ## The wire format, as the sender writes it -/

/-- A non-negative integer written in decimal. -/
def decimal (n : Nat) : List Char := (Nat.repr n).toList

/-- The text between the prefix and the first `|` after it. -/
def numericBlock (buffer : List Char) : List Char :=
  (buffer.drop LAYOUT_PREFIX_LENGTH).takeWhile (fun c => c != '|')

/-- A field starts with an integer: after optional white space and an optional sign
there is a decimal digit. -/
def startsWithInteger (field : List Char) : Bool :=
  match (takeSign (field.dropWhile isspace)).2 with
  | [] => false
  | c :: _ => c.isDigit

/-- Applies `std::stoi` to each of the first `n` fields, in order; `none` when a field is missing
or refused. -/
def parseFields : Nat → List (List Char) → Option (List Int)
  | 0, _ => some []
  | _ + 1, [] => none
  | n + 1, f :: fs =>
    match stoi f with
    | none => none
    | some v =>
      match parseFields n fs with
      | none => none
      | some vs => some (v :: vs)

/-- The layout message for a geometry and a payload:
`LAYOUT:` + `<x>,<y>,<w>,<h>` + `|` + `<payload>`. -/
def encodeLayoutMessage (x y w h : Nat) (payload : List Char) : List Char :=
  "LAYOUT:".toList ++ (decimal x ++ ',' :: (decimal y ++ ',' :: (decimal w ++ ',' ::
    (decimal h ++ '|' :: payload))))

/-! ## Notions used to state the properties -/

/-- Position and size of the overlay window: `(x, y, width, height)`. -/
def geometryOf (overlay : OverlayWindow) : Int × Int × Int × Int :=
  (overlay.x, overlay.y, overlay.width, overlay.height)

/-- The value of `mouseOverClickable` in a tick of `HandleTimerMessage` for the cursor
position reported by `GetCursorPos`. -/
def cursorInside (clickableRects : List RECT) (hWnd : OverlayWindow) (cursor : POINT) : Bool :=
  mouseOverClickable clickableRects (ScreenToClient hWnd cursor)

/-- The text `[x,y,w,h]` for a tuple of non-negative integers, written in decimal. -/
def encodeRect (t : Nat × Nat × Nat × Nat) : List Char :=
  '[' :: (decimal t.1 ++ ',' :: (decimal t.2.1 ++ ',' :: (decimal t.2.2.1 ++ ',' ::
    (decimal t.2.2.2 ++ [']']))))

/-- The concatenation of the texts `[x,y,w,h]` of a sequence of tuples. -/
def encodeRects : List (Nat × Nat × Nat × Nat) → List Char
  | [] => []
  | t :: ts => encodeRect t ++ encodeRects ts

/-- The rect a tuple `(x, y, w, h)` stands for: `{x, y, x + w, y + h}`. -/
def rectOfTuple (t : Nat × Nat × Nat × Nat) : RECT :=
  { left := t.1, top := t.2.1, right := (t.1 : Int) + t.2.2.1, bottom := (t.2.1 : Int) + t.2.2.2 }

/-- A nonempty run of decimal digits. -/
def isDigitRun (g : List Char) : Prop :=
  g ≠ [] ∧ ∀ c ∈ g, c.isDigit = true

/-- The text `[g1,g2,g3,g4]` followed by `post`. -/
def tupleText (g1 g2 g3 g4 post : List Char) : List Char :=
  '[' :: (g1 ++ ',' :: (g2 ++ ',' :: (g3 ++ ',' :: (g4 ++ ']' :: post))))

/-- The text contains a tuple: somewhere in it stands `[g1,g2,g3,g4]` with four nonempty
runs of decimal digits. -/
def containsTuple (input : List Char) : Prop :=
  ∃ pre g1 g2 g3 g4 post, isDigitRun g1 ∧ isDigitRun g2 ∧ isDigitRun g3 ∧ isDigitRun g4 ∧
    input = pre ++ tupleText g1 g2 g3 g4 post

/-- A state of the program while it runs: the overlay at `(0, 0)` with size `10 x 10`,
the host client area at `(5, 5)` with size `20 x 20`, the renderer available, no layout
message stored and none pending. -/
def runningWorld : World :=
  { mainWindow := some { x := 0, y := 0, width := 10, height := 10, exStyle := 0,
                         setWindowPosCalls := [], setWindowLongCalls := [] },
    blenderWindow := some { clientTopLeft := { x := 5, y := 5 },
                            clientRect := { left := 0, top := 0, right := 20, bottom := 20 } },
    currentLayoutMessage := [],
    messageQueue := [],
    updateOverlayPositionCalls := [],
    webviewReady := true,
    webMessages := [] }

/-- The event loop taking `turns` turns, each one `dispatchMessage`. -/
def runEventLoop : Nat → World → World
  | 0, w => w
  | turns + 1, w => runEventLoop turns (dispatchMessage w)

/-! ## Auxiliary facts: decimal digits and `std::stoi` -/

theorem digitChar_spec (k : Nat) (h : k < 10) :
    (Nat.digitChar k).isDigit = true ∧ (Nat.digitChar k).toNat - 48 = k := by
  interval_cases k <;> decide

theorem digitsValue_append_singleton (ds : List Char) (c : Char) :
    digitsValue (ds ++ [c]) = digitsValue ds * 10 + (c.toNat - 48) := by
  simp [digitsValue, List.foldl_append]

theorem toDigitsCore_spec : ∀ (fuel n : Nat) (ds : List Char), n < fuel →
    ∃ pre, Nat.toDigitsCore 10 fuel n ds = pre ++ ds ∧ pre ≠ [] ∧
      (∀ c ∈ pre, c.isDigit = true) ∧ digitsValue pre = n := by
  intro fuel
  induction fuel with
  | zero => intro n ds h; omega
  | succ fuel ih =>
    intro n ds h
    have hd := digitChar_spec (n % 10) (Nat.mod_lt _ (by decide))
    by_cases h0 : n / 10 = 0
    · refine ⟨[Nat.digitChar (n % 10)], ?_, by simp, ?_, ?_⟩
      · simp [Nat.toDigitsCore, h0]
      · intro c hc
        simp only [List.mem_singleton] at hc
        rw [hc]; exact hd.1
      · have := digitsValue_append_singleton [] (Nat.digitChar (n % 10))
        simp only [List.nil_append] at this
        rw [this, hd.2]
        simp [digitsValue]
        omega
    · obtain ⟨pre, h1, _, h3, h4⟩ := ih (n / 10) (Nat.digitChar (n % 10) :: ds) (by omega)
      refine ⟨pre ++ [Nat.digitChar (n % 10)], ?_, by simp, ?_, ?_⟩
      · simp [Nat.toDigitsCore, h0, h1]
      · intro c hc
        rcases List.mem_append.1 hc with hc | hc
        · exact h3 c hc
        · simp only [List.mem_singleton] at hc
          rw [hc]; exact hd.1
      · rw [digitsValue_append_singleton, h4, hd.2]
        omega

/-- The decimal writing of `n` is a nonempty run of digits whose value is `n`. -/
theorem decimal_spec (n : Nat) :
    decimal n ≠ [] ∧ (∀ c ∈ decimal n, c.isDigit = true) ∧ digitsValue (decimal n) = n := by
  obtain ⟨pre, h1, h2, h3, h4⟩ := toDigitsCore_spec (n + 1) n [] (Nat.lt_succ_self n)
  have : decimal n = pre := by
    show Nat.toDigits 10 n = pre
    simp [Nat.toDigits, h1]
  rw [this]
  exact ⟨h2, h3, h4⟩

theorem isDigit_range (c : Char) (h : c.isDigit = true) : 48 ≤ c.toNat ∧ c.toNat ≤ 57 := by
  simp only [Char.isDigit, Bool.and_eq_true, decide_eq_true_eq] at h
  have h1 : (48 : UInt32).toNat ≤ c.val.toNat := h.1
  have h2 : c.val.toNat ≤ (57 : UInt32).toNat := h.2
  exact ⟨h1, h2⟩

theorem isDigit_not_isspace (c : Char) (h : c.isDigit = true) : isspace c = false := by
  have hr := isDigit_range c h
  by_contra hs
  simp only [isspace, Bool.not_eq_false, Bool.or_eq_true, beq_iff_eq] at hs
  rcases hs with ((((hs | hs) | hs) | hs) | hs) | hs
  all_goals first
    | (subst hs; revert hr; decide)
    | omega

theorem isDigit_ne (c d : Char) (h : c.isDigit = true) (hd : d.isDigit = false) : c ≠ d := by
  intro hcd
  rw [hcd, hd] at h
  exact Bool.noConfusion h

/-- On a nonempty run of digits `std::stoi` reads exactly the run, and returns its value
when it fits an `int`. -/
theorem stoi_digits_append (ds rest : List Char) (h1 : ds ≠ [])
    (h2 : ∀ c ∈ ds, c.isDigit = true) (h3 : ∀ c, rest.head? = some c → c.isDigit = false) :
    stoi (ds ++ rest) = if digitsValue ds ≤ 2147483647 then some (digitsValue ds : Int) else none := by
  obtain ⟨c, r, rfl⟩ := List.exists_cons_of_ne_nil h1
  have hc : c.isDigit = true := h2 c (List.mem_cons_self _ _)
  have hsp : isspace c = false := isDigit_not_isspace c hc
  have hm : c ≠ '-' := isDigit_ne c '-' hc (by decide)
  have hp : c ≠ '+' := isDigit_ne c '+' hc (by decide)
  have htake : List.takeWhile Char.isDigit (c :: r ++ rest) = c :: r := by
    rw [List.takeWhile_append_of_pos h2]
    cases rest with
    | nil => simp
    | cons d rest =>
      have := h3 d rfl
      simp [List.takeWhile_cons, this]
  unfold stoi
  simp only [List.cons_append, List.dropWhile_cons, hsp, takeSign, hm, hp, if_false,
    Bool.false_eq_true]
  rw [show c :: (r ++ rest) = c :: r ++ rest from rfl, htake]
  simp only [reduceCtorEq, if_false, INT_MIN, INT_MAX]
  by_cases hle : digitsValue (c :: r) ≤ 2147483647
  · rw [if_pos hle, if_neg]
    omega
  · rw [if_neg hle, if_pos]
    omega

theorem stoi_decimal (n : Nat) (h : n ≤ 2147483647) : stoi (decimal n) = some (n : Int) := by
  obtain ⟨h1, h2, h3⟩ := decimal_spec n
  have := stoi_digits_append (decimal n) [] h1 h2 (by simp)
  rw [List.append_nil, h3, if_pos h] at this
  exact this

theorem stoi_decimal_large (n : Nat) (h : 2147483647 < n) : stoi (decimal n) = none := by
  obtain ⟨h1, h2, h3⟩ := decimal_spec n
  have := stoi_digits_append (decimal n) [] h1 h2 (by simp)
  rw [List.append_nil, h3, if_neg (by omega)] at this
  exact this

/-! ## Auxiliary facts: `find`, `getline` and the token loop -/

theorem indexOfChar_none (ch : Char) (l : List Char) (h : ch ∉ l) : indexOfChar ch l = none := by
  induction l with
  | nil => rfl
  | cons c r ih =>
    have hc : c ≠ ch := fun e => h (e ▸ List.mem_cons_self _ _)
    simp [indexOfChar, hc, ih (fun hm => h (List.mem_cons_of_mem _ hm))]

theorem indexOfChar_first (ch : Char) (a b : List Char) (h : ch ∉ a) :
    indexOfChar ch (a ++ ch :: b) = some a.length := by
  induction a with
  | nil => simp [indexOfChar]
  | cons c r ih =>
    have hc : c ≠ ch := fun e => h (e ▸ List.mem_cons_self _ _)
    simp [indexOfChar, hc, ih (fun hm => h (List.mem_cons_of_mem _ hm))]

theorem takeWhile_ne_append (d : Char) (a b : List Char) (h : d ∉ a) :
    List.takeWhile (fun c => c != d) (a ++ d :: b) = a := by
  rw [List.takeWhile_append_of_pos]
  · simp
  · intro c hc
    have : c ≠ d := fun e => h (e ▸ hc)
    simpa using this

theorem dropWhile_ne_append (d : Char) (a b : List Char) (h : d ∉ a) :
    List.dropWhile (fun c => c != d) (a ++ d :: b) = d :: b := by
  rw [List.dropWhile_append_of_pos]
  · simp
  · intro c hc
    have : c ≠ d := fun e => h (e ▸ hc)
    simpa using this

theorem takeWhile_ne_self (d : Char) (a : List Char) (h : d ∉ a) :
    List.takeWhile (fun c => c != d) a = a := by
  rw [List.takeWhile_eq_self_iff]
  intro c hc
  have : c ≠ d := fun e => h (e ▸ hc)
  simpa using this

theorem dropWhile_ne_self (d : Char) (a : List Char) (h : d ∉ a) :
    List.dropWhile (fun c => c != d) a = [] := by
  have h1 := List.takeWhile_append_dropWhile (fun c => c != d) a
  rw [takeWhile_ne_self d a h] at h1
  exact List.append_right_eq_self.1 h1

theorem getline_eof (r : List Char) (d : Char) : getline { rest := r, eof := true } d = none := by
  simp [getline]

theorem getline_nil (d : Char) : getline { rest := [], eof := false } d = none := by
  simp [getline]

theorem getline_delim (tok r : List Char) (d : Char) (h : d ∉ tok) :
    getline { rest := tok ++ d :: r, eof := false } d = some (tok, { rest := r, eof := false }) := by
  simp [getline, takeWhile_ne_append d tok r h, dropWhile_ne_append d tok r h]

theorem getline_last (tok : List Char) (d : Char) (h : d ∉ tok) (hne : tok ≠ []) :
    getline { rest := tok, eof := false } d = some (tok, { rest := [], eof := true }) := by
  simp [getline, takeWhile_ne_self d tok h, dropWhile_ne_self d tok h, hne]

/-- Five evaluations of the loop condition always bring the token loop to its end. -/
theorem readValues_fuel : ∀ (fuel : Nat) (iss : IStream) (values : List Int),
    1 ≤ fuel → SSCANF_EXPECTED_ARGS + 1 ≤ fuel + values.length →
    ∃ r, readValues fuel iss values = some r := by
  intro fuel
  induction fuel with
  | zero => intro iss values h; omega
  | succ fuel ih =>
    intro iss values _ h2
    unfold readValues
    cases hg : getline iss ',' with
    | none => exact ⟨_, rfl⟩
    | some q =>
      obtain ⟨token, iss'⟩ := q
      simp only
      by_cases hl : values.length < SSCANF_EXPECTED_ARGS
      · rw [if_pos hl]
        cases hs : stoi token with
        | none => exact ⟨_, rfl⟩
        | some v =>
          simp only
          apply ih
          · simp only [SSCANF_EXPECTED_ARGS] at hl h2; omega
          · simp only [List.length_append, List.length_singleton]; omega
      · rw [if_neg hl]
        exact ⟨_, rfl⟩

theorem splitOn_no_delim (s : List Char) (h : ',' ∉ s) : s.splitOn ',' = [s] := by
  apply List.splitOnP_eq_single
  intro c hc
  have : c ≠ ',' := fun e => h (e ▸ hc)
  simpa using this

theorem splitOn_append_cons (tok r : List Char) (h : ',' ∉ tok) :
    (tok ++ ',' :: r).splitOn ',' = tok :: r.splitOn ',' := by
  induction tok with
  | nil => simp [List.splitOn, List.splitOnP_cons]
  | cons c t ih =>
    have hc : c ≠ ',' := fun e => h (e ▸ List.mem_cons_self _ _)
    have := ih (fun hm => h (List.mem_cons_of_mem _ hm))
    simp only [List.splitOn] at this ⊢
    simp [List.splitOnP_cons, hc, this]

theorem stoi_nil : stoi [] = none := by decide

theorem parseFields_length : ∀ (n : Nat) (fs : List (List Char)) (vs : List Int),
    parseFields n fs = some vs → vs.length = n := by
  intro n
  induction n with
  | zero => intro fs vs h; simp [parseFields] at h; simp [← h]
  | succ n ih =>
    intro fs vs h
    cases fs with
    | nil => simp [parseFields] at h
    | cons f fs =>
      simp only [parseFields] at h
      cases hs : stoi f with
      | none => simp [hs] at h
      | some v =>
        cases hp : parseFields n fs with
        | none => simp [hs, hp] at h
        | some vs' =>
          simp [hs, hp] at h
          rw [← h, List.length_cons, ih fs vs' hp]

/-- The token loop reads the first fields of the comma-separated text: it ends with four
values exactly when `std::stoi` accepts each of the fields still needed. -/
theorem readValues_spec : ∀ (n : Nat) (s : List Char) (values : List Int) (fuel : Nat),
    values.length + n = SSCANF_EXPECTED_ARGS → n + 1 ≤ fuel →
    (∀ vs, parseFields n (s.splitOn ',') = some vs →
        readValues fuel { rest := s, eof := false } values = some (.done (values ++ vs))) ∧
    (parseFields n (s.splitOn ',') = none →
        readValues fuel { rest := s, eof := false } values = some .threw ∨
        ∃ vs, readValues fuel { rest := s, eof := false } values = some (.done vs) ∧
          vs.length < SSCANF_EXPECTED_ARGS) := by
  intro n
  induction n with
  | zero =>
    intro s values fuel hlen hfuel
    obtain ⟨fuel, rfl⟩ : ∃ k, fuel = k + 1 := ⟨fuel - 1, by omega⟩
    have hnot : ¬ values.length < SSCANF_EXPECTED_ARGS := by omega
    constructor
    · intro vs hvs
      simp only [parseFields, Option.some.injEq] at hvs
      subst hvs
      unfold readValues
      cases hg : getline { rest := s, eof := false } ',' with
      | none => simp
      | some q => simp [hnot]
    · intro h
      simp [parseFields] at h
  | succ n ih =>
    intro s values fuel hlen hfuel
    obtain ⟨fuel, rfl⟩ : ∃ k, fuel = k + 1 := ⟨fuel - 1, by omega⟩
    have hlt : values.length < SSCANF_EXPECTED_ARGS := by omega
    by_cases hmem : ',' ∈ s
    · obtain ⟨tok, r, rfl, htok⟩ := List.eq_append_cons_of_mem hmem
      rw [splitOn_append_cons tok r htok]
      unfold readValues
      rw [getline_delim tok r ',' htok]
      simp only [hlt, if_true, parseFields]
      cases hs : stoi tok with
      | none => simp
      | some v =>
        have hi := ih r (values ++ [v]) fuel
          (by simp only [List.length_append, List.length_singleton]; omega) (by omega)
        simp only
        constructor
        · intro vs hvs
          cases hp : parseFields n (r.splitOn ',') with
          | none => simp [hp] at hvs
          | some vs' =>
            simp only [hp, Option.some.injEq] at hvs
            subst hvs
            rw [hi.1 vs' hp]
            simp
        · intro hnone
          cases hp : parseFields n (r.splitOn ',') with
          | none => exact hi.2 hp
          | some vs' => simp [hp] at hnone
    · rw [splitOn_no_delim s hmem]
      by_cases hnil : s = []
      · subst hnil
        unfold readValues
        rw [getline_nil]
        simp only [parseFields, stoi_nil]
        constructor
        · intro vs hvs; simp at hvs
        · intro _
          exact Or.inr ⟨values, rfl, hlt⟩
      · unfold readValues
        rw [getline_last s ',' hmem hnil]
        simp only [hlt, if_true, parseFields]
        cases hs : stoi s with
        | none => simp
        | some v =>
          simp only
          have hrun : readValues fuel { rest := [], eof := true } (values ++ [v])
              = some (.done (values ++ [v])) := by
            obtain ⟨fuel', rfl⟩ : ∃ k, fuel = k + 1 := ⟨fuel - 1, by omega⟩
            unfold readValues
            rw [getline_eof]
          rw [hrun]
          cases n with
          | zero => simp [parseFields]
          | succ m =>
            simp only [parseFields]
            constructor
            · intro vs hvs; simp at hvs
            · intro _
              refine Or.inr ⟨values ++ [v], rfl, ?_⟩
              simp only [List.length_append, List.length_singleton]
              omega

/-! ## Auxiliary facts: the shape of an accepted buffer -/

theorem decode_of_block (a b : List Char) (ha : '|' ∉ a) :
    decodeLayoutMessage ("LAYOUT:".toList ++ (a ++ '|' :: b)) =
      match readValues (SSCANF_EXPECTED_ARGS + 1) { rest := a, eof := false } [] with
      | some (.done [v0, v1, v2, v3]) =>
        some { blenderX := v0, blenderY := v1, blenderWidth := v2, blenderHeight := v3,
               jsonData := b }
      | _ => none := by
  have hl : "LAYOUT:".toList = ['L', 'A', 'Y', 'O', 'U', 'T', ':'] := rfl
  have hfind : find ("LAYOUT:".toList ++ (a ++ '|' :: b)) '|' LAYOUT_PREFIX_LENGTH
      = some (7 + a.length) := by
    simp [find, hl, LAYOUT_PREFIX_LENGTH, indexOfChar_first '|' a b ha]
  have hsub : substr ("LAYOUT:".toList ++ (a ++ '|' :: b)) LAYOUT_PREFIX_LENGTH
      (7 + a.length - LAYOUT_PREFIX_LENGTH) = a := by
    simp [substr, hl, LAYOUT_PREFIX_LENGTH]
  have hjson : substrFrom ("LAYOUT:".toList ++ (a ++ '|' :: b)) (7 + a.length + 1) = b := by
    have : 7 + a.length + 1 = ("LAYOUT:".toList ++ (a ++ ['|'])).length := by
      simp [hl]; omega
    have e : "LAYOUT:".toList ++ (a ++ '|' :: b) = ("LAYOUT:".toList ++ (a ++ ['|'])) ++ b := by
      simp
    rw [substrFrom, this, e, List.drop_left]
  have hpre : ¬ (("LAYOUT:".toList ++ (a ++ '|' :: b)).length < LAYOUT_PREFIX_LENGTH ∨
      ("LAYOUT:".toList ++ (a ++ '|' :: b)).take LAYOUT_PREFIX_LENGTH ≠ "LAYOUT:".toList) := by
    simp [hl, LAYOUT_PREFIX_LENGTH]
  unfold decodeLayoutMessage
  rw [if_neg hpre, hfind]
  simp only [hsub, hjson]

theorem decode_of_fields (a b : List Char) (ha : '|' ∉ a) :
    decodeLayoutMessage ("LAYOUT:".toList ++ (a ++ '|' :: b)) =
      match parseFields SSCANF_EXPECTED_ARGS (a.splitOn ',') with
      | some [v0, v1, v2, v3] =>
        some { blenderX := v0, blenderY := v1, blenderWidth := v2, blenderHeight := v3,
               jsonData := b }
      | _ => none := by
  rw [decode_of_block a b ha]
  have hspec := readValues_spec SSCANF_EXPECTED_ARGS a [] (SSCANF_EXPECTED_ARGS + 1)
    (by simp) (le_refl _)
  cases hp : parseFields SSCANF_EXPECTED_ARGS (a.splitOn ',') with
  | some vs =>
    rw [hspec.1 vs hp]
    have hlen := parseFields_length _ _ _ hp
    match vs, hlen with
    | [_, _, _, _], _ => rfl
  | none =>
    rcases hspec.2 hp with h | ⟨vs, h, hlen⟩
    · rw [h]
    · rw [h]
      match vs, hlen with
      | [], _ => rfl
      | [_], _ => rfl
      | [_, _], _ => rfl
      | [_, _, _], _ => rfl
      | _ :: _ :: _ :: _ :: _, hlen =>
        simp only [SSCANF_EXPECTED_ARGS, List.length_cons] at hlen
        omega

/-- A buffer with the prefix and a `|` after it is the prefix, the numeric block, the
first `|`, and the rest. -/
theorem buffer_shape (buffer : List Char)
    (hp : buffer.take LAYOUT_PREFIX_LENGTH = "LAYOUT:".toList)
    (hb : '|' ∈ buffer.drop LAYOUT_PREFIX_LENGTH) :
    '|' ∉ numericBlock buffer ∧ ∃ b,
      buffer.drop LAYOUT_PREFIX_LENGTH = numericBlock buffer ++ '|' :: b ∧
      buffer = "LAYOUT:".toList ++ (numericBlock buffer ++ '|' :: b) := by
  obtain ⟨a, b, hab, ha⟩ := List.eq_append_cons_of_mem hb
  have hnb : numericBlock buffer = a := by
    rw [numericBlock, hab, takeWhile_ne_append '|' a b ha]
  rw [hnb]
  refine ⟨ha, b, hab, ?_⟩
  have := List.take_append_drop LAYOUT_PREFIX_LENGTH buffer
  rw [hp, hab] at this
  exact this.symm

theorem stoi_startsWithInteger (f : List Char) (v : Int) (h : stoi f = some v) :
    startsWithInteger f = true := by
  unfold stoi at h
  unfold startsWithInteger
  cases hs : (takeSign (List.dropWhile isspace f)).2 with
  | nil => simp [hs] at h
  | cons c r =>
    simp only
    by_contra hc
    simp [hs, List.takeWhile_cons, hc] at h

theorem parseFields_some_iff : ∀ (n : Nat) (fs : List (List Char)),
    (parseFields n fs).isSome = true ↔
      n ≤ fs.length ∧ ∀ i, i < n → (stoi (fs.getD i [])).isSome = true := by
  intro n
  induction n with
  | zero => intro fs; simp [parseFields]
  | succ n ih =>
    intro fs
    cases fs with
    | nil => simp [parseFields]
    | cons f fs =>
      simp only [parseFields, List.length_cons, Nat.add_le_add_iff_right]
      constructor
      · intro h
        cases hs : stoi f with
        | none => simp [hs] at h
        | some v =>
          cases hpf : parseFields n fs with
          | none => simp [hs, hpf] at h
          | some vs =>
            have := (ih fs).1 (by simp [hpf])
            refine ⟨this.1, ?_⟩
            intro i hi
            cases i with
            | zero => simp [hs]
            | succ j => simpa using this.2 j (by omega)
      · rintro ⟨hlen, hall⟩
        have h0 := hall 0 (by omega)
        simp only [List.getD_cons_zero] at h0
        obtain ⟨v, hv⟩ := Option.isSome_iff_exists.1 h0
        have hrest := (ih fs).2 ⟨hlen, fun i hi => by simpa using hall (i + 1) (by omega)⟩
        obtain ⟨vs, hvs⟩ := Option.isSome_iff_exists.1 hrest
        simp [hv, hvs]

theorem parseFields_values : ∀ (n : Nat) (fs : List (List Char)) (vs : List Int),
    parseFields n fs = some vs → ∀ i, i < n → stoi (fs.getD i []) = vs[i]? := by
  intro n
  induction n with
  | zero => intro fs vs _ i hi; omega
  | succ n ih =>
    intro fs vs h i hi
    cases fs with
    | nil => simp [parseFields] at h
    | cons f fs =>
      simp only [parseFields] at h
      cases hs : stoi f with
      | none => simp [hs] at h
      | some v =>
        cases hpf : parseFields n fs with
        | none => simp [hs, hpf] at h
        | some vs' =>
          simp only [hs, hpf, Option.some.injEq] at h
          subst h
          cases i with
          | zero => simp [hs]
          | succ j => simpa using ih fs vs' hpf j (by omega)

theorem decimal_no_char (n : Nat) (d : Char) (hd : d.isDigit = false) : d ∉ decimal n := by
  intro hm
  have := (decimal_spec n).2.1 d hm
  rw [hd] at this
  exact Bool.noConfusion this

theorem encode_shape (x y w h : Nat) (payload : List Char) :
    encodeLayoutMessage x y w h payload =
      "LAYOUT:".toList ++ ((decimal x ++ ',' :: (decimal y ++ ',' :: (decimal w ++ ',' ::
        decimal h))) ++ '|' :: payload) := by
  simp [encodeLayoutMessage, List.append_assoc]

theorem encode_block_no_bar (x y w h : Nat) :
    '|' ∉ decimal x ++ ',' :: (decimal y ++ ',' :: (decimal w ++ ',' :: decimal h)) := by
  have hx := decimal_no_char x '|' (by decide)
  have hy := decimal_no_char y '|' (by decide)
  have hw := decimal_no_char w '|' (by decide)
  have hh := decimal_no_char h '|' (by decide)
  simp [hx, hy, hw, hh]

theorem encode_block_fields (x y w h : Nat) :
    (decimal x ++ ',' :: (decimal y ++ ',' :: (decimal w ++ ',' :: decimal h))).splitOn ','
      = [decimal x, decimal y, decimal w, decimal h] := by
  rw [splitOn_append_cons _ _ (decimal_no_char x ',' (by decide)),
    splitOn_append_cons _ _ (decimal_no_char y ',' (by decide)),
    splitOn_append_cons _ _ (decimal_no_char w ',' (by decide)),
    splitOn_no_delim _ (decimal_no_char h ',' (by decide))]

/-! ## C1: encoding then decoding a layout message -/

/-- C1, as amended: for all non-negative integers `x`, `y`, `w`, `h` that fit the `int`
of the program (at most 2147483647) and every payload text, also one containing `|` or
`,`, the parsing steps of `ProcessLayoutMessage` applied to
`LAYOUT:x,y,w,h|payload` yield exactly the geometry `(x, y, w, h)` and exactly the
payload; `ProcessLayoutMessage` then calls `UpdateOverlayPosition` with that geometry
and, when the call returns `true`, stores the converted payload and posts
`WM_LAYOUT_UPDATE`. -/
theorem decode_encode_roundtrip (x y w h : Nat) (payload : List Char)
    (hx : x ≤ 2147483647) (hy : y ≤ 2147483647) (hw : w ≤ 2147483647) (hh : h ≤ 2147483647) :
    decodeLayoutMessage (encodeLayoutMessage x y w h payload)
        = some { blenderX := x, blenderY := y, blenderWidth := w, blenderHeight := h,
                 jsonData := payload } ∧
    ∀ (mb : List Char → List Char) (world : World),
      (ProcessLayoutMessage mb world (encodeLayoutMessage x y w h payload)).updateOverlayPositionCalls
          = world.updateOverlayPositionCalls ++ [((x : Int), (y : Int), (w : Int), (h : Int))] ∧
      ((UpdateOverlayPosition world.mainWindow world.blenderWindow x y w h).1 = true →
        (ProcessLayoutMessage mb world (encodeLayoutMessage x y w h payload)).currentLayoutMessage
            = Utf8ToWide mb payload ∧
        (ProcessLayoutMessage mb world (encodeLayoutMessage x y w h payload)).messageQueue
            = world.messageQueue ++ [Message.WM_LAYOUT_UPDATE]) := by
  have hdec : decodeLayoutMessage (encodeLayoutMessage x y w h payload)
      = some { blenderX := x, blenderY := y, blenderWidth := w, blenderHeight := h,
               jsonData := payload } := by
    rw [encode_shape, decode_of_fields _ _ (encode_block_no_bar x y w h), encode_block_fields]
    simp [parseFields, SSCANF_EXPECTED_ARGS, stoi_decimal x hx, stoi_decimal y hy,
      stoi_decimal w hw, stoi_decimal h hh]
  refine ⟨hdec, ?_⟩
  intro mb world
  unfold ProcessLayoutMessage
  rw [hdec]
  constructor
  · simp only
    split <;> rfl
  · intro hres
    simp [hres]

/-- Witness of C1: the geometry `(10, 20, 300, 200)` with a payload that holds both
delimiters. -/
theorem decode_encode_roundtrip_witness :
    decodeLayoutMessage (encodeLayoutMessage 10 20 300 200 "a|b,c".toList)
      = some { blenderX := 10, blenderY := 20, blenderWidth := 300, blenderHeight := 200,
               jsonData := "a|b,c".toList } :=
  (decode_encode_roundtrip 10 20 300 200 "a|b,c".toList (by decide) (by decide) (by decide)
    (by decide)).1

/-- Counterexample to C1 as stated: `x = 2147483648` is a non-negative integer, and the
message written for it is dropped, since `std::stoi` throws `std::out_of_range`. -/
theorem decode_encode_out_of_range :
    encodeLayoutMessage 2147483648 0 1 1 "p".toList = "LAYOUT:2147483648,0,1,1|p".toList ∧
    decodeLayoutMessage (encodeLayoutMessage 2147483648 0 1 1 "p".toList) = none := by
  decide

/-! ## C2: malformed buffers produce no frame -/

/-- C2: a buffer that is shorter than the prefix, or does not start with `LAYOUT:`, or has
no `|` after the prefix, or has fewer than four comma-separated fields before the `|`,
or has among its first four fields one that does not start with an integer, produces no
frame: `ProcessLayoutMessage` returns (no exception leaves it) with the state as it
was, so `UpdateOverlayPosition` was not called and nothing was posted. -/
theorem malformed_produces_no_frame (buffer : List Char)
    (h : buffer.length < LAYOUT_PREFIX_LENGTH ∨
      buffer.take LAYOUT_PREFIX_LENGTH ≠ "LAYOUT:".toList ∨
      '|' ∉ buffer.drop LAYOUT_PREFIX_LENGTH ∨
      ((numericBlock buffer).splitOn ',').length < 4 ∨
      ∃ i, i < 4 ∧ startsWithInteger (((numericBlock buffer).splitOn ',').getD i []) = false) :
    decodeLayoutMessage buffer = none ∧
    ∀ (mb : List Char → List Char) (world : World),
      ProcessLayoutMessage mb world buffer = world := by
  have hdec : decodeLayoutMessage buffer = none := by
    by_cases hpre : buffer.length < LAYOUT_PREFIX_LENGTH ∨
        buffer.take LAYOUT_PREFIX_LENGTH ≠ "LAYOUT:".toList
    · unfold decodeLayoutMessage
      rw [if_pos hpre]
    · have hp : buffer.take LAYOUT_PREFIX_LENGTH = "LAYOUT:".toList := by
        by_contra hne
        exact hpre (Or.inr hne)
      by_cases hb : '|' ∈ buffer.drop LAYOUT_PREFIX_LENGTH
      · obtain ⟨hnb, b, _, hbuf⟩ := buffer_shape buffer hp hb
        have hfields : parseFields SSCANF_EXPECTED_ARGS ((numericBlock buffer).splitOn ',')
            = none := by
          cases hpf : parseFields SSCANF_EXPECTED_ARGS ((numericBlock buffer).splitOn ',') with
          | none => rfl
          | some vs =>
            exfalso
            have hsome := (parseFields_some_iff SSCANF_EXPECTED_ARGS _).1 (by rw [hpf]; rfl)
            rcases h with h | h | h | h | ⟨i, hi, hf⟩
            · exact hpre (Or.inl h)
            · exact hpre (Or.inr h)
            · exact h hb
            · have := hsome.1
              simp only [SSCANF_EXPECTED_ARGS] at this
              omega
            · obtain ⟨v, hv⟩ := Option.isSome_iff_exists.1 (hsome.2 i hi)
              rw [stoi_startsWithInteger _ v hv] at hf
              exact Bool.noConfusion hf
        rw [hbuf, decode_of_fields _ _ hnb, hfields]
      · unfold decodeLayoutMessage
        rw [if_neg hpre]
        simp [find, indexOfChar_none '|' _ hb]
  refine ⟨hdec, ?_⟩
  intro mb world
  unfold ProcessLayoutMessage
  rw [hdec]

/-- Witness of C2: the four malformed buffers named in the specification. -/
theorem malformed_produces_no_frame_witness :
    decodeLayoutMessage "LAYOUT:10,20,abc,5|x".toList = none ∧
    decodeLayoutMessage "LAYOUT:10,20,30|x".toList = none ∧
    decodeLayoutMessage "NOTLAYOUT:10,20,30,40|x".toList = none ∧
    decodeLayoutMessage "LAY".toList = none :=
  ⟨(malformed_produces_no_frame "LAYOUT:10,20,abc,5|x".toList
      (Or.inr (Or.inr (Or.inr (Or.inr ⟨2, by decide, by decide⟩))))).1,
   (malformed_produces_no_frame "LAYOUT:10,20,30|x".toList
      (Or.inr (Or.inr (Or.inr (Or.inl (by decide)))))).1,
   (malformed_produces_no_frame "NOTLAYOUT:10,20,30,40|x".toList
      (Or.inr (Or.inl (by decide)))).1,
   (malformed_produces_no_frame "LAY".toList (Or.inl (by decide))).1⟩

/-! ## C3: which numeric blocks are accepted -/

/-- C3, as amended: for a buffer that starts with `LAYOUT:` and has a `|` after the
prefix, the frame is accepted exactly when the text between the prefix and the first
`|` has at least four comma-separated fields and `std::stoi` accepts each of the first
four (an integer in the range of `int`, possibly after white space and a sign); the
geometry is then what `std::stoi` reads from these four fields and the payload is what
follows the first `|`. Fields after the fourth and characters after the digits of a
field are ignored. -/
theorem accepted_iff_first_four_fields_parse (buffer : List Char)
    (hp : buffer.take LAYOUT_PREFIX_LENGTH = "LAYOUT:".toList)
    (hb : '|' ∈ buffer.drop LAYOUT_PREFIX_LENGTH) :
    ((decodeLayoutMessage buffer).isSome = true ↔
      4 ≤ ((numericBlock buffer).splitOn ',').length ∧
      ∀ i, i < 4 → (stoi (((numericBlock buffer).splitOn ',').getD i [])).isSome = true) ∧
    ∀ frame, decodeLayoutMessage buffer = some frame →
      stoi (((numericBlock buffer).splitOn ',').getD 0 []) = some frame.blenderX ∧
      stoi (((numericBlock buffer).splitOn ',').getD 1 []) = some frame.blenderY ∧
      stoi (((numericBlock buffer).splitOn ',').getD 2 []) = some frame.blenderWidth ∧
      stoi (((numericBlock buffer).splitOn ',').getD 3 []) = some frame.blenderHeight ∧
      buffer.drop LAYOUT_PREFIX_LENGTH = numericBlock buffer ++ '|' :: frame.jsonData := by
  obtain ⟨hnb, b, hdrop, hbuf⟩ := buffer_shape buffer hp hb
  have hdec := decode_of_fields (numericBlock buffer) b hnb
  rw [← hbuf] at hdec
  have hiff := parseFields_some_iff SSCANF_EXPECTED_ARGS ((numericBlock buffer).splitOn ',')
  cases hpf : parseFields SSCANF_EXPECTED_ARGS ((numericBlock buffer).splitOn ',') with
  | none =>
    rw [hpf] at hdec hiff
    simp only at hdec
    rw [hdec]
    constructor
    · exact hiff
    · intro frame hf
      exact Option.noConfusion hf
  | some vs =>
    have hlen := parseFields_length _ _ _ hpf
    have hvals := parseFields_values _ _ _ hpf
    rw [hpf] at hdec hiff
    match vs, hlen, hvals, hdec with
    | [v0, v1, v2, v3], _, hvals, hdec =>
      simp only at hdec
      rw [hdec]
      constructor
      · exact hiff
      · intro frame hf
        simp only [Option.some.injEq] at hf
        subst hf
        refine ⟨?_, ?_, ?_, ?_, hdrop⟩
        · simpa using hvals 0 (by decide)
        · simpa using hvals 1 (by decide)
        · simpa using hvals 2 (by decide)
        · simpa using hvals 3 (by decide)

/-- Witness of C3 as amended: a block of five fields whose fourth has trailing letters. -/
theorem accepted_iff_first_four_fields_parse_witness :
    ((decodeLayoutMessage "LAYOUT:1,2,3,4abc,5|x".toList).isSome = true ↔
      4 ≤ ((numericBlock "LAYOUT:1,2,3,4abc,5|x".toList).splitOn ',').length ∧
      ∀ i, i < 4 →
        (stoi (((numericBlock "LAYOUT:1,2,3,4abc,5|x".toList).splitOn ',').getD i [])).isSome
          = true) :=
  (accepted_iff_first_four_fields_parse "LAYOUT:1,2,3,4abc,5|x".toList (by decide)
    (by decide)).1

/-- Counterexample to C3 as stated: a numeric block of five fields and a block whose
fourth token has trailing letters are both accepted, with the geometry `(1, 2, 3, 4)`. -/
theorem five_fields_and_trailing_letters_accepted :
    (numericBlock "LAYOUT:1,2,3,4,5|x".toList).splitOn ','
        = ["1".toList, "2".toList, "3".toList, "4".toList, "5".toList] ∧
    decodeLayoutMessage "LAYOUT:1,2,3,4,5|x".toList
        = some { blenderX := 1, blenderY := 2, blenderWidth := 3, blenderHeight := 4,
                 jsonData := "x".toList } ∧
    (numericBlock "LAYOUT:1,2,3,4abc|x".toList).splitOn ','
        = ["1".toList, "2".toList, "3".toList, "4abc".toList] ∧
    decodeLayoutMessage "LAYOUT:1,2,3,4abc|x".toList
        = some { blenderX := 1, blenderY := 2, blenderWidth := 3, blenderHeight := 4,
                 jsonData := "x".toList } := by
  decide

/-! ## C4 and C5: `UpdateOverlayPosition` -/

/-- C4, as amended: `UpdateOverlayPosition` sets the overlay window's geometry to
`(x, y, w, h)` and returns `true` if and only if both window handles are non-null,
`w > 0`, `h > 0`, and at least one of `x`, `y`, `w`, `h` differs from the host window's
current client-area origin and size; otherwise it leaves the overlay window unchanged
and returns `false`. The overlay window's own geometry is not consulted. -/
theorem updateOverlayPosition_iff_differs_from_host (overlay : Option OverlayWindow)
    (blender : Option HostWindow) (x y w h : Int) :
    ((UpdateOverlayPosition overlay blender x y w h).1 = true ↔
      ∃ ov bl, overlay = some ov ∧ blender = some bl ∧ 0 < w ∧ 0 < h ∧
        (x ≠ bl.clientTopLeft.x ∨ y ≠ bl.clientTopLeft.y ∨
          w ≠ bl.clientRect.right ∨ h ≠ bl.clientRect.bottom)) ∧
    (∀ ov, overlay = some ov → (UpdateOverlayPosition overlay blender x y w h).1 = true →
      (UpdateOverlayPosition overlay blender x y w h).2 = some (SetWindowPos ov x y w h) ∧
      geometryOf (SetWindowPos ov x y w h) = (x, y, w, h)) ∧
    ((UpdateOverlayPosition overlay blender x y w h).1 = false →
      (UpdateOverlayPosition overlay blender x y w h).2 = overlay) := by
  cases overlay with
  | none => simp [UpdateOverlayPosition]
  | some ov =>
    cases blender with
    | none => simp [UpdateOverlayPosition]
    | some bl =>
      by_cases hg : w ≤ 0 ∨ h ≤ 0
      · have hn : ¬ (0 < w ∧ 0 < h ∧ (x ≠ bl.clientTopLeft.x ∨ y ≠ bl.clientTopLeft.y ∨
            w ≠ bl.clientRect.right ∨ h ≠ bl.clientRect.bottom)) := by
          rintro ⟨h1, h2, _⟩
          omega
        simp [UpdateOverlayPosition, hg, hn]
      · have hw : 0 < w := by
          by_contra hc
          exact hg (Or.inl (by omega))
        have hh : 0 < h := by
          by_contra hc
          exact hg (Or.inr (by omega))
        by_cases hd : x ≠ bl.clientTopLeft.x ∨ y ≠ bl.clientTopLeft.y ∨
            w ≠ bl.clientRect.right ∨ h ≠ bl.clientRect.bottom
        · simp only [UpdateOverlayPosition, hg, hd, if_true, if_false]
          refine ⟨⟨fun _ => ⟨ov, bl, rfl, rfl, hw, hh, hd⟩, fun _ => trivial⟩, ?_, ?_⟩
          · intro ov' hov _
            simp only [Option.some.injEq] at hov
            subst hov
            exact ⟨rfl, rfl⟩
          · intro hf
            exact Bool.noConfusion hf
        · simp only [UpdateOverlayPosition, hg, hd, if_false]
          refine ⟨⟨fun hf => Bool.noConfusion hf, ?_⟩, ?_, fun _ => trivial⟩
          · rintro ⟨ov', bl', _, hbl, _, _, hd'⟩
            simp only [Option.some.injEq] at hbl
            subst hbl
            exact absurd hd' hd
          · intro ov' _ hf
            exact Bool.noConfusion hf

/-- Counterexample to C4 as stated. The overlay is at `(0, 0)` with size `10 x 10` and the
host client area at `(5, 5)` with size `20 x 20`. A request for `(5, 5, 20, 20)` differs
from the overlay's geometry, yet nothing is applied and `false` is returned; a request
for `(0, 0, 10, 10)` equals the overlay's geometry, yet `SetWindowPos` is called and
`true` is returned. -/
theorem updateOverlayPosition_ignores_overlay_geometry :
    ((5, 5, 20, 20) : Int × Int × Int × Int)
        ≠ geometryOf
            { x := 0, y := 0, width := 10, height := 10, exStyle := 0,
              setWindowPosCalls := [], setWindowLongCalls := [] } ∧
    UpdateOverlayPosition
        (some { x := 0, y := 0, width := 10, height := 10, exStyle := 0,
                setWindowPosCalls := [], setWindowLongCalls := [] })
        (some { clientTopLeft := { x := 5, y := 5 },
                clientRect := { left := 0, top := 0, right := 20, bottom := 20 } })
        5 5 20 20
      = (false, some { x := 0, y := 0, width := 10, height := 10, exStyle := 0,
                       setWindowPosCalls := [], setWindowLongCalls := [] }) ∧
    UpdateOverlayPosition
        (some { x := 0, y := 0, width := 10, height := 10, exStyle := 0,
                setWindowPosCalls := [], setWindowLongCalls := [] })
        (some { clientTopLeft := { x := 5, y := 5 },
                clientRect := { left := 0, top := 0, right := 20, bottom := 20 } })
        0 0 10 10
      = (true, some { x := 0, y := 0, width := 10, height := 10, exStyle := 0,
                      setWindowPosCalls := [(0, 0, 10, 10)], setWindowLongCalls := [] }) := by
  decide

/-- C5, as amended: two consecutive calls of `UpdateOverlayPosition` with the same target
and the same host window return the same boolean. When the first call applies the
target, the second call applies it again (a second `SetWindowPos` with the same
arguments) and the overlay geometry stays at the target; when the first call applies
nothing, neither does the second. -/
theorem updateOverlayPosition_twice (overlay : Option OverlayWindow)
    (blender : Option HostWindow) (x y w h : Int) :
    (UpdateOverlayPosition (UpdateOverlayPosition overlay blender x y w h).2 blender x y w h).1
        = (UpdateOverlayPosition overlay blender x y w h).1 ∧
    (UpdateOverlayPosition (UpdateOverlayPosition overlay blender x y w h).2
        blender x y w h).2.map geometryOf
        = (UpdateOverlayPosition overlay blender x y w h).2.map geometryOf ∧
    (∀ ov, overlay = some ov → (UpdateOverlayPosition overlay blender x y w h).1 = true →
      (UpdateOverlayPosition (UpdateOverlayPosition overlay blender x y w h).2
          blender x y w h).2.map OverlayWindow.setWindowPosCalls
        = some (ov.setWindowPosCalls ++ [(x, y, w, h), (x, y, w, h)])) ∧
    ((UpdateOverlayPosition overlay blender x y w h).1 = false →
      (UpdateOverlayPosition (UpdateOverlayPosition overlay blender x y w h).2
          blender x y w h).2 = overlay) := by
  cases overlay with
  | none => simp [UpdateOverlayPosition]
  | some ov =>
    cases blender with
    | none => simp [UpdateOverlayPosition]
    | some bl =>
      by_cases hg : w ≤ 0 ∨ h ≤ 0
      · simp [UpdateOverlayPosition, hg]
      · by_cases hd : x ≠ bl.clientTopLeft.x ∨ y ≠ bl.clientTopLeft.y ∨
            w ≠ bl.clientRect.right ∨ h ≠ bl.clientRect.bottom
        · simp [UpdateOverlayPosition, hg, hd, SetWindowPos, geometryOf]
        · simp [UpdateOverlayPosition, hg, hd]

/-- Counterexample to C5 as stated. The overlay starts at `(0, 0, 10, 10)`, the host
client area is at `(5, 5)` with size `20 x 20`, and the target `(1, 1, 10, 10)` differs
from the starting geometry. The first call applies the target and returns `true`; the
second call does not return `false`: it returns `true` and calls `SetWindowPos` again. -/
theorem updateOverlayPosition_second_call_applies_again :
    ((1, 1, 10, 10) : Int × Int × Int × Int)
        ≠ geometryOf
            { x := 0, y := 0, width := 10, height := 10, exStyle := 0,
              setWindowPosCalls := [], setWindowLongCalls := [] } ∧
    UpdateOverlayPosition
        (some { x := 0, y := 0, width := 10, height := 10, exStyle := 0,
                setWindowPosCalls := [], setWindowLongCalls := [] })
        (some { clientTopLeft := { x := 5, y := 5 },
                clientRect := { left := 0, top := 0, right := 20, bottom := 20 } })
        1 1 10 10
      = (true, some { x := 1, y := 1, width := 10, height := 10, exStyle := 0,
                      setWindowPosCalls := [(1, 1, 10, 10)], setWindowLongCalls := [] }) ∧
    UpdateOverlayPosition
        (some { x := 1, y := 1, width := 10, height := 10, exStyle := 0,
                setWindowPosCalls := [(1, 1, 10, 10)], setWindowLongCalls := [] })
        (some { clientTopLeft := { x := 5, y := 5 },
                clientRect := { left := 0, top := 0, right := 20, bottom := 20 } })
        1 1 10 10
      = (true, some { x := 1, y := 1, width := 10, height := 10, exStyle := 0,
                      setWindowPosCalls := [(1, 1, 10, 10), (1, 1, 10, 10)],
                      setWindowLongCalls := [] }) := by
  decide

/-! ## C6: the hit test -/

theorem PtInRect_iff (rect : RECT) (point : POINT) :
    PtInRect rect point = true ↔
      rect.left ≤ point.x ∧ point.x < rect.right ∧ rect.top ≤ point.y ∧ point.y < rect.bottom := by
  simp [PtInRect, and_assoc]

theorem mouseOverClickable_iff (rects : List RECT) (point : POINT) :
    mouseOverClickable rects point = true ↔ ∃ rect ∈ rects, PtInRect rect point = true := by
  induction rects with
  | nil => simp [mouseOverClickable]
  | cons r rest ih =>
    by_cases hr : PtInRect r point = true
    · simp [mouseOverClickable, hr]
    · simp [mouseOverClickable, hr, ih]

/-- C6: for every set of clickable rects and every point `P` tested, the hit test of
`HandleTimerMessage` is true if and only if some rect `R` of the set has
`R.left <= P.x < R.right` and `R.top <= P.y < R.bottom`; it is false for the empty set,
and reordering the rects does not change the result. The point tested in a tick is the
cursor position after `ScreenToClient`. -/
theorem hit_test_iff_in_some_rect (rects : List RECT) (P : POINT) :
    (mouseOverClickable rects P = true ↔
      ∃ R ∈ rects, R.left ≤ P.x ∧ P.x < R.right ∧ R.top ≤ P.y ∧ P.y < R.bottom) ∧
    mouseOverClickable [] P = false ∧
    (∀ reordered : List RECT, rects.Perm reordered →
      mouseOverClickable reordered P = mouseOverClickable rects P) ∧
    ∀ (hWnd : OverlayWindow) (cursor : POINT),
      cursorInside rects hWnd cursor = mouseOverClickable rects (ScreenToClient hWnd cursor) := by
  refine ⟨?_, rfl, ?_, fun _ _ => rfl⟩
  · rw [mouseOverClickable_iff]
    constructor
    · rintro ⟨R, hR, h⟩
      exact ⟨R, hR, (PtInRect_iff R P).1 h⟩
    · rintro ⟨R, hR, h⟩
      exact ⟨R, hR, (PtInRect_iff R P).2 h⟩
  · intro reordered hperm
    have key : mouseOverClickable reordered P = true ↔ mouseOverClickable rects P = true := by
      rw [mouseOverClickable_iff, mouseOverClickable_iff]
      constructor
      · rintro ⟨R, hR, h⟩
        exact ⟨R, hperm.mem_iff.2 hR, h⟩
      · rintro ⟨R, hR, h⟩
        exact ⟨R, hperm.mem_iff.1 hR, h⟩
    cases h1 : mouseOverClickable reordered P <;> cases h2 : mouseOverClickable rects P
    · rfl
    · rw [h1, h2] at key
      exact absurd (key.2 rfl) (by decide)
    · rw [h1, h2] at key
      exact absurd (key.1 rfl) (by decide)
    · rfl

/-! ## C7: the passthrough state machine -/

theorem clear_transparent_bit (e : Nat) :
    (e &&& bitNot32 WS_EX_TRANSPARENT) &&& WS_EX_TRANSPARENT = 0 := by
  rw [Nat.land_assoc]
  have : bitNot32 WS_EX_TRANSPARENT &&& WS_EX_TRANSPARENT = 0 := by decide
  rw [this]
  simp

theorem set_transparent_bit (e : Nat) :
    (e ||| WS_EX_TRANSPARENT) &&& WS_EX_TRANSPARENT = WS_EX_TRANSPARENT := by
  apply Nat.eq_of_testBit_eq
  intro i
  simp only [Nat.testBit_land, Nat.testBit_lor]
  cases e.testBit i <;> cases Nat.testBit WS_EX_TRANSPARENT i <;> rfl

theorem isTransparent_iff (hWnd : OverlayWindow) :
    isTransparent hWnd = true ↔ hWnd.exStyle &&& WS_EX_TRANSPARENT ≠ 0 := by
  simp [isTransparent]

theorem isTransparent_cleared (hWnd : OverlayWindow) :
    isTransparent (SetWindowLong hWnd (hWnd.exStyle &&& bitNot32 WS_EX_TRANSPARENT)) = false := by
  simp [isTransparent, SetWindowLong, clear_transparent_bit]

theorem isTransparent_set (hWnd : OverlayWindow) :
    isTransparent (SetWindowLong hWnd (hWnd.exStyle ||| WS_EX_TRANSPARENT)) = true := by
  have h := set_transparent_bit hWnd.exStyle
  simp only [isTransparent, SetWindowLong, h]
  decide

/-- One tick, by cases on the hit test and on the current state. -/
theorem tick_cases (rects : List RECT) (hWnd : OverlayWindow) (cursor : POINT) :
    HandleTimerMessage rects hWnd POSITION_TIMER_ID cursor =
      if cursorInside rects hWnd cursor = true then
        if isTransparent hWnd = true then
          SetWindowLong hWnd (hWnd.exStyle &&& bitNot32 WS_EX_TRANSPARENT)
        else hWnd
      else
        if isTransparent hWnd = true then hWnd
        else SetWindowLong hWnd (hWnd.exStyle ||| WS_EX_TRANSPARENT) := by
  unfold HandleTimerMessage cursorInside
  simp only [ne_eq, not_true_eq_false, if_false, isTransparent_iff]
  by_cases hin : mouseOverClickable rects (ScreenToClient hWnd cursor) = true
  · simp only [hin, if_true]
  · simp only [hin, Bool.false_eq_true, if_false]
    by_cases hz : hWnd.exStyle &&& WS_EX_TRANSPARENT = 0
    · simp [hz]
    · simp [hz]

theorem cursorInside_tick (rects : List RECT) (hWnd : OverlayWindow) (cursor p : POINT) :
    cursorInside rects (HandleTimerMessage rects hWnd POSITION_TIMER_ID cursor) p
      = cursorInside rects hWnd p := by
  rw [tick_cases]
  split <;> split <;> rfl

theorem runTicks_append (rects : List RECT) (hWnd : OverlayWindow) (a b : List POINT) :
    runTicks rects hWnd (a ++ b) = runTicks rects (runTicks rects hWnd a) b := by
  induction a generalizing hWnd with
  | nil => rfl
  | cons p a ih => simp [runTicks, ih]

theorem runTicks_outside (rects : List RECT) (hWnd : OverlayWindow) (ps : List POINT)
    (ht : isTransparent hWnd = true) (ho : ∀ p ∈ ps, cursorInside rects hWnd p = false) :
    runTicks rects hWnd ps = hWnd := by
  induction ps with
  | nil => rfl
  | cons p ps ih =>
    have hp := ho p (List.mem_cons_self _ _)
    have ht1 : HandleTimerMessage rects hWnd POSITION_TIMER_ID p = hWnd := by
      rw [tick_cases, hp, ht]; simp
    simp only [runTicks, ht1]
    exact ih (fun q hq => ho q (List.mem_cons_of_mem _ hq))

theorem runTicks_inside (rects : List RECT) (hWnd : OverlayWindow) (ps : List POINT)
    (ht : isTransparent hWnd = false) (hi : ∀ p ∈ ps, cursorInside rects hWnd p = true) :
    runTicks rects hWnd ps = hWnd := by
  induction ps with
  | nil => rfl
  | cons p ps ih =>
    have hp := hi p (List.mem_cons_self _ _)
    have ht1 : HandleTimerMessage rects hWnd POSITION_TIMER_ID p = hWnd := by
      rw [tick_cases, hp, ht]; simp
    simp only [runTicks, ht1]
    exact ih (fun q hq => hi q (List.mem_cons_of_mem _ hq))

/-- C7: starting with the overlay TRANSPARENT, ticks for cursor positions outside every
rect write nothing; the first position inside a rect causes exactly one write, which
clears `WS_EX_TRANSPARENT` (INTERACTIVE), and further inside positions cause none;
the first outside position after that causes exactly one write, which sets
`WS_EX_TRANSPARENT` again, and further outside positions cause none. In general a tick
writes the style exactly when the current state differs from the target state, and
after it the state is the target state. -/
theorem passthrough_state_machine (rects : List RECT) (hWnd : OverlayWindow)
    (outs1 ins outs2 : List POINT) (pin pout : POINT)
    (ht : isTransparent hWnd = true)
    (ho1 : ∀ p ∈ outs1, cursorInside rects hWnd p = false)
    (hin : ∀ p ∈ pin :: ins, cursorInside rects hWnd p = true)
    (ho2 : ∀ p ∈ pout :: outs2, cursorInside rects hWnd p = false) :
    runTicks rects hWnd outs1 = hWnd ∧
    (runTicks rects hWnd (outs1 ++ [pin])).setWindowLongCalls
        = hWnd.setWindowLongCalls ++ [hWnd.exStyle &&& bitNot32 WS_EX_TRANSPARENT] ∧
    isTransparent (runTicks rects hWnd (outs1 ++ [pin])) = false ∧
    runTicks rects hWnd (outs1 ++ pin :: ins) = runTicks rects hWnd (outs1 ++ [pin]) ∧
    (runTicks rects hWnd (outs1 ++ pin :: ins ++ [pout])).setWindowLongCalls
        = hWnd.setWindowLongCalls ++ [hWnd.exStyle &&& bitNot32 WS_EX_TRANSPARENT,
            (hWnd.exStyle &&& bitNot32 WS_EX_TRANSPARENT) ||| WS_EX_TRANSPARENT] ∧
    isTransparent (runTicks rects hWnd (outs1 ++ pin :: ins ++ [pout])) = true ∧
    runTicks rects hWnd (outs1 ++ pin :: ins ++ pout :: outs2)
        = runTicks rects hWnd (outs1 ++ pin :: ins ++ [pout]) ∧
    ∀ (win : OverlayWindow) (cursor : POINT),
      (HandleTimerMessage rects win POSITION_TIMER_ID cursor).setWindowLongCalls.length
          = win.setWindowLongCalls.length +
            (if isTransparent win = cursorInside rects win cursor then 1 else 0) ∧
      isTransparent (HandleTimerMessage rects win POSITION_TIMER_ID cursor)
          = !cursorInside rects win cursor := by
  have hpin := hin pin (List.mem_cons_self _ _)
  have hpout := ho2 pout (List.mem_cons_self _ _)
  have hrun1 : runTicks rects hWnd outs1 = hWnd := runTicks_outside rects hWnd outs1 ht ho1
  have htick1 : HandleTimerMessage rects hWnd POSITION_TIMER_ID pin
      = SetWindowLong hWnd (hWnd.exStyle &&& bitNot32 WS_EX_TRANSPARENT) := by
    rw [tick_cases, hpin, ht]; simp
  have hrun2 : runTicks rects hWnd (outs1 ++ [pin])
      = SetWindowLong hWnd (hWnd.exStyle &&& bitNot32 WS_EX_TRANSPARENT) := by
    rw [runTicks_append, hrun1]
    simp only [runTicks, htick1]
  have hint : isTransparent (SetWindowLong hWnd (hWnd.exStyle &&& bitNot32 WS_EX_TRANSPARENT))
      = false := isTransparent_cleared hWnd
  have hrun3 : runTicks rects hWnd (outs1 ++ pin :: ins)
      = SetWindowLong hWnd (hWnd.exStyle &&& bitNot32 WS_EX_TRANSPARENT) := by
    rw [runTicks_append, hrun1]
    simp only [runTicks, htick1]
    exact runTicks_inside rects _ ins hint
      (fun q hq => hin q (List.mem_cons_of_mem _ hq))
  have htick2 : HandleTimerMessage rects
      (SetWindowLong hWnd (hWnd.exStyle &&& bitNot32 WS_EX_TRANSPARENT)) POSITION_TIMER_ID pout
      = SetWindowLong (SetWindowLong hWnd (hWnd.exStyle &&& bitNot32 WS_EX_TRANSPARENT))
          ((hWnd.exStyle &&& bitNot32 WS_EX_TRANSPARENT) ||| WS_EX_TRANSPARENT) := by
    have hout : cursorInside rects
        (SetWindowLong hWnd (hWnd.exStyle &&& bitNot32 WS_EX_TRANSPARENT)) pout = false := hpout
    rw [tick_cases, hout, hint]
    rfl
  have hrun4 : runTicks rects hWnd (outs1 ++ pin :: ins ++ [pout])
      = SetWindowLong (SetWindowLong hWnd (hWnd.exStyle &&& bitNot32 WS_EX_TRANSPARENT))
          ((hWnd.exStyle &&& bitNot32 WS_EX_TRANSPARENT) ||| WS_EX_TRANSPARENT) := by
    rw [runTicks_append, hrun3]
    simp only [runTicks, htick2]
  have htr : isTransparent
      (SetWindowLong (SetWindowLong hWnd (hWnd.exStyle &&& bitNot32 WS_EX_TRANSPARENT))
          ((hWnd.exStyle &&& bitNot32 WS_EX_TRANSPARENT) ||| WS_EX_TRANSPARENT)) = true :=
    isTransparent_set (SetWindowLong hWnd (hWnd.exStyle &&& bitNot32 WS_EX_TRANSPARENT))
  have hrun5 : runTicks rects hWnd (outs1 ++ pin :: ins ++ pout :: outs2)
      = runTicks rects hWnd (outs1 ++ pin :: ins ++ [pout]) := by
    rw [hrun4, runTicks_append, hrun3]
    simp only [runTicks, htick2]
    exact runTicks_outside rects _ outs2 htr
      (fun q hq => ho2 q (List.mem_cons_of_mem _ hq))
  refine ⟨hrun1, ?_, ?_, ?_, ?_, ?_, hrun5, ?_⟩
  · rw [hrun2]; rfl
  · rw [hrun2]; exact hint
  · rw [hrun3, hrun2]
  · rw [hrun4]; simp [SetWindowLong]
  · rw [hrun4]; exact htr
  · intro win cursor
    rw [tick_cases]
    cases hc : cursorInside rects win cursor <;> cases hs : isTransparent win
    · simp only [Bool.false_eq_true, if_false, if_true]
      refine ⟨by simp [SetWindowLong], ?_⟩
      exact isTransparent_set win
    · simp [hs]
    · simp [hs]
    · simp only [if_true]
      refine ⟨by simp [SetWindowLong], ?_⟩
      exact isTransparent_cleared win

/-- Witness of C7: one rect `[0, 10) x [0, 10)`, an overlay at the screen origin whose
style is exactly `WS_EX_TRANSPARENT`, and the cursor going outside, inside twice, and
outside twice. -/
theorem passthrough_state_machine_witness :
    (runTicks [{ left := 0, top := 0, right := 10, bottom := 10 }]
        { x := 0, y := 0, width := 100, height := 100, exStyle := 32,
          setWindowPosCalls := [], setWindowLongCalls := [] }
        ([{ x := 50, y := 50 }] ++ { x := 5, y := 5 } :: [{ x := 6, y := 6 }] ++
          { x := 10, y := 5 } :: [{ x := 70, y := 70 }])).setWindowLongCalls.length = 2 := by
  have h := passthrough_state_machine [{ left := 0, top := 0, right := 10, bottom := 10 }]
    { x := 0, y := 0, width := 100, height := 100, exStyle := 32,
      setWindowPosCalls := [], setWindowLongCalls := [] }
    [{ x := 50, y := 50 }] [{ x := 6, y := 6 }] [{ x := 70, y := 70 }]
    { x := 5, y := 5 } { x := 10, y := 5 } (by decide) (by decide) (by decide) (by decide)
  rw [h.2.2.2.2.2.2.1, h.2.2.2.2.1]
  rfl

/-! ## C8: `ParseRects` -/

theorem matchChar_length (c : Char) (s r : List Char) (h : matchChar c s = some r) :
    r.length + 1 = s.length := by
  cases s with
  | nil => simp [matchChar] at h
  | cons d t =>
    by_cases hd : d = c
    · simp [matchChar, hd] at h
      simp [h]
    · simp [matchChar, hd] at h

theorem matchDigits_length (s g r : List Char) (h : matchDigits s = some (g, r)) :
    r.length ≤ s.length := by
  unfold matchDigits at h
  by_cases hg : List.takeWhile Char.isDigit s = []
  · simp [hg] at h
  · simp only [hg, if_false, Option.some.injEq, Prod.mk.injEq] at h
    rw [← h.2]
    have := List.takeWhile_append_dropWhile Char.isDigit s
    have hl := congrArg List.length this
    rw [List.length_append] at hl
    omega

/-- A match consumes at least one character. -/
theorem matchRectAt_length (s : List Char) (m : RectMatch) (rest : List Char)
    (h : matchRectAt s = some (m, rest)) : rest.length < s.length := by
  unfold matchRectAt at h
  cases h1 : matchChar '[' s with
  | none => simp [h1] at h
  | some s1 =>
  cases h2 : matchDigits s1 with
  | none => simp [h1, h2] at h
  | some q2 =>
  obtain ⟨g1, s2⟩ := q2
  cases h3 : matchChar ',' s2 with
  | none => simp [h1, h2, h3] at h
  | some s3 =>
  cases h4 : matchDigits s3 with
  | none => simp [h1, h2, h3, h4] at h
  | some q4 =>
  obtain ⟨g2, s4⟩ := q4
  cases h5 : matchChar ',' s4 with
  | none => simp [h1, h2, h3, h4, h5] at h
  | some s5 =>
  cases h6 : matchDigits s5 with
  | none => simp [h1, h2, h3, h4, h5, h6] at h
  | some q6 =>
  obtain ⟨g3, s6⟩ := q6
  cases h7 : matchChar ',' s6 with
  | none => simp [h1, h2, h3, h4, h5, h6, h7] at h
  | some s7 =>
  cases h8 : matchDigits s7 with
  | none => simp [h1, h2, h3, h4, h5, h6, h7, h8] at h
  | some q8 =>
  obtain ⟨g4, s8⟩ := q8
  cases h9 : matchChar ']' s8 with
  | none => simp [h1, h2, h3, h4, h5, h6, h7, h8, h9] at h
  | some s9 =>
  simp only [h1, h2, h3, h4, h5, h6, h7, h8, h9, Option.some.injEq, Prod.mk.injEq] at h
  have e1 := matchChar_length _ _ _ h1
  have e2 := matchDigits_length _ _ _ h2
  have e3 := matchChar_length _ _ _ h3
  have e4 := matchDigits_length _ _ _ h4
  have e5 := matchChar_length _ _ _ h5
  have e6 := matchDigits_length _ _ _ h6
  have e7 := matchChar_length _ _ _ h7
  have e8 := matchDigits_length _ _ _ h8
  have e9 := matchChar_length _ _ _ h9
  rw [← h.2]
  omega

/-- A bound of at least the length of the text is never exhausted: the matches found do
not depend on it. -/
theorem regexMatches_fuel : ∀ (fuel1 fuel2 : Nat) (s : List Char),
    s.length ≤ fuel1 → s.length ≤ fuel2 → regexMatches fuel1 s = regexMatches fuel2 s := by
  intro fuel1
  induction fuel1 with
  | zero =>
    intro fuel2 s h1 _
    have : s = [] := List.length_eq_zero.1 (by omega)
    subst this
    cases fuel2 <;> rfl
  | succ k ih =>
    intro fuel2 s h1 h2
    cases s with
    | nil => cases fuel2 <;> rfl
    | cons c cs =>
      obtain ⟨j, rfl⟩ : ∃ j, fuel2 = j + 1 := ⟨fuel2 - 1, by simp at h2; omega⟩
      simp only [List.length_cons] at h1 h2
      simp only [regexMatches]
      cases hm : matchRectAt (c :: cs) with
      | none => exact ih j cs (by omega) (by omega)
      | some q =>
        obtain ⟨m, rest⟩ := q
        have hl := matchRectAt_length _ _ _ hm
        simp only [List.length_cons] at hl
        simp only
        rw [ih j rest (by omega) (by omega)]

theorem matchDigits_decimal (n : Nat) (c : Char) (r : List Char) (hc : c.isDigit = false) :
    matchDigits (decimal n ++ c :: r) = some (decimal n, c :: r) := by
  obtain ⟨h1, h2, _⟩ := decimal_spec n
  have ht : List.takeWhile Char.isDigit (decimal n ++ c :: r) = decimal n := by
    rw [List.takeWhile_append_of_pos h2]
    simp [List.takeWhile_cons, hc]
  have hd : List.dropWhile Char.isDigit (decimal n ++ c :: r) = c :: r := by
    rw [List.dropWhile_append_of_pos h2]
    simp [List.dropWhile_cons, hc]
  simp [matchDigits, ht, hd, h1]

theorem matchRectAt_encodeRect (t : Nat × Nat × Nat × Nat) (rest : List Char) :
    matchRectAt (encodeRect t ++ rest)
      = some ({ g1 := decimal t.1, g2 := decimal t.2.1, g3 := decimal t.2.2.1,
                g4 := decimal t.2.2.2 }, rest) := by
  have e : encodeRect t ++ rest = '[' :: (decimal t.1 ++ ',' :: (decimal t.2.1 ++ ',' ::
      (decimal t.2.2.1 ++ ',' :: (decimal t.2.2.2 ++ ']' :: rest)))) := by
    simp [encodeRect, List.append_assoc]
  rw [e]
  simp [matchRectAt, matchChar, matchDigits_decimal _ ',' _ (by decide),
    matchDigits_decimal _ ']' _ (by decide)]

theorem addInt32_small (a b : Nat) (h : a + b ≤ 2147483647) :
    addInt32 (a : Int) (b : Int) = (a : Int) + (b : Int) := by
  unfold addInt32
  omega

theorem rectOfMatch_decimal (t : Nat × Nat × Nat × Nat)
    (hx : t.1 + t.2.2.1 ≤ 2147483647) (hy : t.2.1 + t.2.2.2 ≤ 2147483647) :
    rectOfMatch { g1 := decimal t.1, g2 := decimal t.2.1, g3 := decimal t.2.2.1,
                  g4 := decimal t.2.2.2 } = some (rectOfTuple t) := by
  simp only [rectOfMatch, stoi_decimal t.1 (by omega), stoi_decimal t.2.1 (by omega),
    stoi_decimal t.2.2.1 (by omega), stoi_decimal t.2.2.2 (by omega), rectOfTuple,
    addInt32_small _ _ hx, addInt32_small _ _ hy]

theorem encodeRect_length_pos (t : Nat × Nat × Nat × Nat) : 0 < (encodeRect t).length := by
  simp [encodeRect]

theorem copyRects_encodeRects : ∀ (ts : List (Nat × Nat × Nat × Nat)) (fuel : Nat),
    (encodeRects ts).length ≤ fuel →
    (∀ t ∈ ts, t.1 + t.2.2.1 ≤ 2147483647 ∧ t.2.1 + t.2.2.2 ≤ 2147483647) →
    copyRects (regexMatches fuel (encodeRects ts)) = some (ts.map rectOfTuple) := by
  intro ts
  induction ts with
  | nil =>
    intro fuel _ _
    cases fuel <;> rfl
  | cons t ts ih =>
    intro fuel hfuel hb
    have hpos := encodeRect_length_pos t
    have hlen : (encodeRect t).length + (encodeRects ts).length ≤ fuel := by
      simpa [encodeRects] using hfuel
    obtain ⟨k, rfl⟩ : ∃ k, fuel = k + 1 := ⟨fuel - 1, by omega⟩
    obtain ⟨c, cs, hcs⟩ : ∃ c cs, encodeRect t ++ encodeRects ts = c :: cs := by
      simp [encodeRect]
    have hm := matchRectAt_encodeRect t (encodeRects ts)
    rw [hcs] at hm
    have hbt := hb t (List.mem_cons_self _ _)
    have hrest := ih k (by omega) (fun u hu => hb u (List.mem_cons_of_mem _ hu))
    show copyRects (regexMatches (k + 1) (encodeRect t ++ encodeRects ts)) = _
    rw [hcs]
    simp only [regexMatches, hm, copyRects, rectOfMatch_decimal t hbt.1 hbt.2, hrest,
      List.map_cons]

theorem matchChar_sound (c : Char) (s r : List Char) (h : matchChar c s = some r) :
    s = c :: r := by
  cases s with
  | nil => simp [matchChar] at h
  | cons d t =>
    by_cases hd : d = c
    · simp [matchChar, hd] at h
      rw [hd, h]
    · simp [matchChar, hd] at h

theorem matchDigits_sound (s g r : List Char) (h : matchDigits s = some (g, r)) :
    s = g ++ r ∧ isDigitRun g := by
  unfold matchDigits at h
  by_cases hg : List.takeWhile Char.isDigit s = []
  · simp [hg] at h
  · simp only [hg, if_false, Option.some.injEq, Prod.mk.injEq] at h
    rw [← h.1, ← h.2]
    exact ⟨(List.takeWhile_append_dropWhile Char.isDigit s).symm, hg,
      fun c hc => List.mem_takeWhile_imp hc⟩

/-- A match at the head of a text reads a tuple there. -/
theorem matchRectAt_sound (s : List Char) (m : RectMatch) (rest : List Char)
    (h : matchRectAt s = some (m, rest)) :
    s = tupleText m.g1 m.g2 m.g3 m.g4 rest ∧
      isDigitRun m.g1 ∧ isDigitRun m.g2 ∧ isDigitRun m.g3 ∧ isDigitRun m.g4 := by
  unfold matchRectAt at h
  cases h1 : matchChar '[' s with
  | none => simp [h1] at h
  | some s1 =>
  cases h2 : matchDigits s1 with
  | none => simp [h1, h2] at h
  | some q2 =>
  obtain ⟨g1, s2⟩ := q2
  cases h3 : matchChar ',' s2 with
  | none => simp [h1, h2, h3] at h
  | some s3 =>
  cases h4 : matchDigits s3 with
  | none => simp [h1, h2, h3, h4] at h
  | some q4 =>
  obtain ⟨g2, s4⟩ := q4
  cases h5 : matchChar ',' s4 with
  | none => simp [h1, h2, h3, h4, h5] at h
  | some s5 =>
  cases h6 : matchDigits s5 with
  | none => simp [h1, h2, h3, h4, h5, h6] at h
  | some q6 =>
  obtain ⟨g3, s6⟩ := q6
  cases h7 : matchChar ',' s6 with
  | none => simp [h1, h2, h3, h4, h5, h6, h7] at h
  | some s7 =>
  cases h8 : matchDigits s7 with
  | none => simp [h1, h2, h3, h4, h5, h6, h7, h8] at h
  | some q8 =>
  obtain ⟨g4, s8⟩ := q8
  cases h9 : matchChar ']' s8 with
  | none => simp [h1, h2, h3, h4, h5, h6, h7, h8, h9] at h
  | some s9 =>
  simp only [h1, h2, h3, h4, h5, h6, h7, h8, h9, Option.some.injEq, Prod.mk.injEq] at h
  obtain ⟨hm, hrest⟩ := h
  subst hm
  subst hrest
  have e1 := matchChar_sound _ _ _ h1
  have e2 := matchDigits_sound _ _ _ h2
  have e3 := matchChar_sound _ _ _ h3
  have e4 := matchDigits_sound _ _ _ h4
  have e5 := matchChar_sound _ _ _ h5
  have e6 := matchDigits_sound _ _ _ h6
  have e7 := matchChar_sound _ _ _ h7
  have e8 := matchDigits_sound _ _ _ h8
  have e9 := matchChar_sound _ _ _ h9
  refine ⟨?_, e2.2, e4.2, e6.2, e8.2⟩
  rw [e1, e2.1, e3, e4.1, e5, e6.1, e7, e8.1, e9]
  rfl

theorem regexMatches_no_match : ∀ (fuel : Nat) (s : List Char),
    (∀ pre t, s = pre ++ t → matchRectAt t = none) → regexMatches fuel s = [] := by
  intro fuel
  induction fuel with
  | zero => intro s _; rfl
  | succ k ih =>
    intro s h
    cases s with
    | nil => rfl
    | cons c cs =>
      have h0 := h [] (c :: cs) rfl
      simp only [regexMatches, h0]
      exact ih cs (fun pre t hcs => h (c :: pre) t (by rw [hcs]; rfl))

/-- Without a tuple in the text the regular expression matches nowhere. -/
theorem no_tuple_no_match (input : List Char) (h : ¬ containsTuple input) :
    ∀ pre t, input = pre ++ t → matchRectAt t = none := by
  intro pre t hpt
  cases hm : matchRectAt t with
  | none => rfl
  | some q =>
    obtain ⟨m, rest⟩ := q
    obtain ⟨ht, d1, d2, d3, d4⟩ := matchRectAt_sound t m rest hm
    exact absurd ⟨pre, m.g1, m.g2, m.g3, m.g4, rest, d1, d2, d3, d4, by rw [hpt, ht]⟩ h

theorem matchDigits_run (g : List Char) (c : Char) (r : List Char) (hg : isDigitRun g)
    (hc : c.isDigit = false) : matchDigits (g ++ c :: r) = some (g, c :: r) := by
  have ht : List.takeWhile Char.isDigit (g ++ c :: r) = g := by
    rw [List.takeWhile_append_of_pos hg.2]
    simp [List.takeWhile_cons, hc]
  have hd : List.dropWhile Char.isDigit (g ++ c :: r) = c :: r := by
    rw [List.dropWhile_append_of_pos hg.2]
    simp [List.dropWhile_cons, hc]
  simp [matchDigits, ht, hd, hg.1]

/-- A text that contains a tuple has a position where the regular expression matches. -/
theorem containsTuple_matches (input : List Char) (h : containsTuple input) :
    input.tails.any (fun t => (matchRectAt t).isSome) = true := by
  obtain ⟨pre, g1, g2, g3, g4, post, d1, d2, d3, d4, hin⟩ := h
  rw [List.any_eq_true]
  refine ⟨tupleText g1 g2 g3 g4 post, ?_, ?_⟩
  · rw [List.mem_tails, hin]
    exact List.suffix_append pre _
  · simp [tupleText, matchRectAt, matchChar, matchDigits_run g1 ',' _ d1 (by decide),
      matchDigits_run g2 ',' _ d2 (by decide), matchDigits_run g3 ',' _ d3 (by decide),
      matchDigits_run g4 ']' _ d4 (by decide)]

/-- C8, as amended: for every finite sequence (zero or more) of tuples
`(x, y, w, h)` of non-negative integers with `x + w` and `y + h` at most 2147483647 (so
that every number and both sums fit the `int` of the program), `ParseRects` applied to
the concatenation of the texts `[x,y,w,h]` returns exactly one rect per tuple, in the
same order, the rect of a tuple being `{x, y, x + w, y + h}`; for
`[10,10,50,20][70,70,30,30]` it returns exactly `{10,10,60,30}` and `{70,70,100,100}`,
and for every input with no tuple in it (no `[g1,g2,g3,g4]` with four nonempty runs of
digits anywhere in the text), the empty text included, it returns no rect. -/
theorem parseRects_encodeRects (ts : List (Nat × Nat × Nat × Nat))
    (hb : ∀ t ∈ ts, t.1 + t.2.2.1 ≤ 2147483647 ∧ t.2.1 + t.2.2.2 ≤ 2147483647) :
    ParseRects (encodeRects ts) = some (ts.map rectOfTuple) ∧
    ParseRects "[10,10,50,20][70,70,30,30]".toList
      = some [{ left := 10, top := 10, right := 60, bottom := 30 },
              { left := 70, top := 70, right := 100, bottom := 100 }] ∧
    ParseRects [] = some [] ∧
    ∀ input : List Char, ¬ containsTuple input → ParseRects input = some [] := by
  refine ⟨?_, by decide, rfl, ?_⟩
  · unfold ParseRects
    by_cases he : encodeRects ts = []
    · rw [if_pos he]
      cases ts with
      | nil => rfl
      | cons t ts =>
        have := encodeRect_length_pos t
        have hl := congrArg List.length he
        simp only [encodeRects, List.length_append, List.length_nil] at hl
        omega
    · rw [if_neg he]
      exact copyRects_encodeRects ts _ (le_refl _) hb
  · intro input hno
    unfold ParseRects
    by_cases he : input = []
    · rw [if_pos he]
    · rw [if_neg he, regexMatches_no_match _ _ (no_tuple_no_match input hno)]
      rfl

/-- Witness of C8 as amended: the two tuples of the scenario, written by `encodeRects`,
and three texts with no tuple in them: `garbage`, `[]` and `[1,2,3]`. -/
theorem parseRects_encodeRects_witness :
    ParseRects (encodeRects [(10, 10, 50, 20), (70, 70, 30, 30)])
      = some ([(10, 10, 50, 20), (70, 70, 30, 30)].map rectOfTuple) ∧
    ParseRects "garbage".toList = some [] ∧
    ParseRects "[]".toList = some [] ∧
    ParseRects "[1,2,3]".toList = some [] :=
  ⟨(parseRects_encodeRects [(10, 10, 50, 20), (70, 70, 30, 30)] (by decide)).1,
   (parseRects_encodeRects [] (by decide)).2.2.2 "garbage".toList
     (fun h => absurd (containsTuple_matches _ h) (by decide)),
   (parseRects_encodeRects [] (by decide)).2.2.2 "[]".toList
     (fun h => absurd (containsTuple_matches _ h) (by decide)),
   (parseRects_encodeRects [] (by decide)).2.2.2 "[1,2,3]".toList
     (fun h => absurd (containsTuple_matches _ h) (by decide))⟩

/-- Counterexample to C8 as stated: for the tuple `(2147483648, 0, 0, 0)` no rect is
returned, since `std::stoi` throws `std::out_of_range` and `ParseRects` does not catch
it; for the tuple `(2147483647, 0, 1, 0)` the sum `positionX + width` does not fit an
`int`, and the rect returned does not have `right = x + w`. -/
theorem parseRects_out_of_range :
    encodeRects [(2147483648, 0, 0, 0)] = "[2147483648,0,0,0]".toList ∧
    ParseRects (encodeRects [(2147483648, 0, 0, 0)]) = none ∧
    encodeRects [(2147483647, 0, 1, 0)] = "[2147483647,0,1,0]".toList ∧
    ParseRects (encodeRects [(2147483647, 0, 1, 0)])
      ≠ some ([(2147483647, 0, 1, 0)].map rectOfTuple) := by
  decide

/-! ## C9: the start-up argument -/

/-- C9 at failing inputs: for the argument `abc,1,2,3` the first `std::stoi` throws
`std::invalid_argument`, and for `1,2,3,` the last one does; nothing in `WinMain`
catches the exception, so the parsing does not complete and no geometry results. An
absent argument and the well-formed `1,2,3,4` are parsed as the claim says, and the
partial `1,2` keeps the defaults of the trailing values. -/
theorem initialGeometry_uncaught_exception :
    initialGeometry (some "abc,1,2,3".toList) = none ∧
    initialGeometry (some "1,2,3,".toList) = none ∧
    initialGeometry (some "1,2,3,4".toList) = some [1, 2, 3, 4] ∧
    initialGeometry (some "1,2".toList) = some [1, 100, 800, 600] ∧
    initialGeometry none = some [100, 100, 800, 600] := by
  decide

/-! ## C10: the layout relay -/

/-- C10 at a failing input: two layout frames are processed before the event loop
dispatches the first `WM_LAYOUT_UPDATE`. After the first frame one notification is
pending and the text it refers to is `A`; the second frame assigns `B` to the same
`thread_local` string, so both pending notifications refer to `B`, and the event loop
hands `B` to the renderer twice and `A` never. When the first notification is
dispatched before the second frame arrives, the renderer receives `A`, then `B`. -/
theorem second_frame_replaces_pending_text :
    (ProcessLayoutMessage id runningWorld "LAYOUT:1,2,3,4|A".toList).messageQueue
        = [Message.WM_LAYOUT_UPDATE] ∧
    readCStr (ProcessLayoutMessage id runningWorld "LAYOUT:1,2,3,4|A".toList) = "A".toList ∧
    (ProcessLayoutMessage id
        (ProcessLayoutMessage id runningWorld "LAYOUT:1,2,3,4|A".toList)
        "LAYOUT:1,2,3,4|B".toList).messageQueue
        = [Message.WM_LAYOUT_UPDATE, Message.WM_LAYOUT_UPDATE] ∧
    (dispatchMessage (dispatchMessage (ProcessLayoutMessage id
        (ProcessLayoutMessage id runningWorld "LAYOUT:1,2,3,4|A".toList)
        "LAYOUT:1,2,3,4|B".toList))).webMessages = ["B".toList, "B".toList] ∧
    (dispatchMessage (ProcessLayoutMessage id
        (dispatchMessage (ProcessLayoutMessage id runningWorld "LAYOUT:1,2,3,4|A".toList))
        "LAYOUT:1,2,3,4|B".toList)).webMessages = ["A".toList, "B".toList] := by
  decide

/-! ## C11: the payload is posted exactly when the overlay was updated -/

theorem updateOverlayPosition_false_unchanged (overlay : Option OverlayWindow)
    (blender : Option HostWindow) (x y w h : Int)
    (hf : (UpdateOverlayPosition overlay blender x y w h).1 = false) :
    (UpdateOverlayPosition overlay blender x y w h).2 = overlay := by
  cases overlay with
  | none => simp [UpdateOverlayPosition]
  | some ov =>
    cases blender with
    | none => simp [UpdateOverlayPosition]
    | some bl =>
      by_cases hg : w ≤ 0 ∨ h ≤ 0
      · simp [UpdateOverlayPosition, hg]
      · by_cases hd : x ≠ bl.clientTopLeft.x ∨ y ≠ bl.clientTopLeft.y ∨
            w ≠ bl.clientRect.right ∨ h ≠ bl.clientRect.bottom
        · simp [UpdateOverlayPosition, hg, hd] at hf
        · simp [UpdateOverlayPosition, hg, hd]

theorem updateOverlayPosition_guards (overlay : Option OverlayWindow)
    (blender : Option HostWindow) (x y w h : Int)
    (hg : w ≤ 0 ∨ h ≤ 0 ∨ overlay = none ∨ blender = none ∨
      ∃ bl, blender = some bl ∧ x = bl.clientTopLeft.x ∧ y = bl.clientTopLeft.y ∧
        w = bl.clientRect.right ∧ h = bl.clientRect.bottom) :
    (UpdateOverlayPosition overlay blender x y w h).1 = false := by
  cases overlay with
  | none => simp [UpdateOverlayPosition]
  | some ov =>
    cases blender with
    | none => simp [UpdateOverlayPosition]
    | some bl =>
      by_cases hs : w ≤ 0 ∨ h ≤ 0
      · simp [UpdateOverlayPosition, hs]
      · rcases hg with hg | hg | hg | hg | ⟨bl', hbl, hx, hy, hw, hh⟩
        · exact absurd (Or.inl hg) hs
        · exact absurd (Or.inr hg) hs
        · exact Option.noConfusion hg
        · exact Option.noConfusion hg
        · simp only [Option.some.injEq] at hbl
          subst hbl
          simp [UpdateOverlayPosition, hs, hx, hy, hw, hh]

theorem dispatchMessage_calls (w : World) (calls : List (Int × Int × Int × Int)) :
    dispatchMessage { w with updateOverlayPositionCalls := calls }
      = { dispatchMessage w with updateOverlayPositionCalls := calls } := by
  unfold dispatchMessage
  cases hq : w.messageQueue with
  | nil => simp [hq]
  | cons m later =>
    cases m
    simp only [hq, HandleLayoutUpdateMessage, readCStr]
    cases w.webviewReady <;> rfl

theorem runEventLoop_calls : ∀ (turns : Nat) (w : World) (calls : List (Int × Int × Int × Int)),
    runEventLoop turns { w with updateOverlayPositionCalls := calls }
      = { runEventLoop turns w with updateOverlayPositionCalls := calls } := by
  intro turns
  induction turns with
  | zero => intro w calls; rfl
  | succ n ih =>
    intro w calls
    show runEventLoop n (dispatchMessage { w with updateOverlayPositionCalls := calls }) = _
    rw [dispatchMessage_calls, ih]
    rfl

/-- C11: for every well-formed layout frame (a buffer the parsing steps accept),
`ProcessLayoutMessage` posts `WM_LAYOUT_UPDATE` for the payload if and only if
`UpdateOverlayPosition` returned `true` for that frame. When it returned `false`, which
it does when the width or height is `<= 0`, when `(x, y, w, h)` equals the host
window's current client-area origin and size, and when the overlay or host window
handle is null, the payload is dropped: no message is posted, the stored layout text
and the overlay are as before, and whatever the event loop does afterwards, the
renderer receives what it would have received without this frame. -/
theorem payload_posted_iff_update_applied (mb : List Char → List Char) (world : World)
    (buffer : List Char) (frame : LayoutFrame)
    (hd : decodeLayoutMessage buffer = some frame) :
    ((ProcessLayoutMessage mb world buffer).messageQueue
        = world.messageQueue ++ [Message.WM_LAYOUT_UPDATE] ↔
      (UpdateOverlayPosition world.mainWindow world.blenderWindow frame.blenderX
        frame.blenderY frame.blenderWidth frame.blenderHeight).1 = true) ∧
    ((UpdateOverlayPosition world.mainWindow world.blenderWindow frame.blenderX
        frame.blenderY frame.blenderWidth frame.blenderHeight).1 = true →
      (ProcessLayoutMessage mb world buffer).currentLayoutMessage
        = Utf8ToWide mb frame.jsonData) ∧
    ((UpdateOverlayPosition world.mainWindow world.blenderWindow frame.blenderX
        frame.blenderY frame.blenderWidth frame.blenderHeight).1 = false →
      ProcessLayoutMessage mb world buffer
        = { world with updateOverlayPositionCalls := world.updateOverlayPositionCalls ++
              [(frame.blenderX, frame.blenderY, frame.blenderWidth, frame.blenderHeight)] } ∧
      ∀ turns, (runEventLoop turns (ProcessLayoutMessage mb world buffer)).webMessages
        = (runEventLoop turns world).webMessages) ∧
    (frame.blenderWidth ≤ 0 ∨ frame.blenderHeight ≤ 0 ∨
      world.mainWindow = none ∨ world.blenderWindow = none ∨
      (∃ bl, world.blenderWindow = some bl ∧ frame.blenderX = bl.clientTopLeft.x ∧
        frame.blenderY = bl.clientTopLeft.y ∧ frame.blenderWidth = bl.clientRect.right ∧
        frame.blenderHeight = bl.clientRect.bottom) →
      (UpdateOverlayPosition world.mainWindow world.blenderWindow frame.blenderX
        frame.blenderY frame.blenderWidth frame.blenderHeight).1 = false) := by
  have hfalse : (UpdateOverlayPosition world.mainWindow world.blenderWindow frame.blenderX
        frame.blenderY frame.blenderWidth frame.blenderHeight).1 = false →
      ProcessLayoutMessage mb world buffer
        = { world with updateOverlayPositionCalls := world.updateOverlayPositionCalls ++
              [(frame.blenderX, frame.blenderY, frame.blenderWidth, frame.blenderHeight)] } := by
    intro hf
    have hu := updateOverlayPosition_false_unchanged _ _ _ _ _ _ hf
    unfold ProcessLayoutMessage
    rw [hd]
    simp only [hf, if_true, hu]
  have htrue : (UpdateOverlayPosition world.mainWindow world.blenderWindow frame.blenderX
        frame.blenderY frame.blenderWidth frame.blenderHeight).1 = true →
      (ProcessLayoutMessage mb world buffer).messageQueue
          = world.messageQueue ++ [Message.WM_LAYOUT_UPDATE] ∧
      (ProcessLayoutMessage mb world buffer).currentLayoutMessage
          = Utf8ToWide mb frame.jsonData := by
    intro ht
    unfold ProcessLayoutMessage
    rw [hd]
    simp [ht]
  refine ⟨⟨?_, fun ht => (htrue ht).1⟩, fun ht => (htrue ht).2, ?_, ?_⟩
  · intro hq
    cases hres : (UpdateOverlayPosition world.mainWindow world.blenderWindow frame.blenderX
        frame.blenderY frame.blenderWidth frame.blenderHeight).1 with
    | true => rfl
    | false =>
      rw [hfalse hres] at hq
      simp at hq
  · intro hf
    refine ⟨hfalse hf, ?_⟩
    intro turns
    rw [hfalse hf, runEventLoop_calls]
  · intro hg
    exact updateOverlayPosition_guards _ _ _ _ _ _ hg

/-- Witness of C11: with the overlay and the host window present and the host client
area at `(5, 5)` with size `20 x 20`, the frame `LAYOUT:5,5,20,20|A` equals the host
geometry and its payload is dropped, while `LAYOUT:1,2,3,4|A` is applied and posted. -/
theorem payload_posted_iff_update_applied_witness :
    decodeLayoutMessage "LAYOUT:5,5,20,20|A".toList
        = some { blenderX := 5, blenderY := 5, blenderWidth := 20, blenderHeight := 20,
                 jsonData := "A".toList } ∧
    ((ProcessLayoutMessage id runningWorld "LAYOUT:5,5,20,20|A".toList).messageQueue
        = runningWorld.messageQueue ++ [Message.WM_LAYOUT_UPDATE] ↔
      (UpdateOverlayPosition runningWorld.mainWindow runningWorld.blenderWindow
        5 5 20 20).1 = true) ∧
    (ProcessLayoutMessage id runningWorld "LAYOUT:5,5,20,20|A".toList).messageQueue = [] ∧
    (ProcessLayoutMessage id runningWorld "LAYOUT:1,2,3,4|A".toList).messageQueue
        = [Message.WM_LAYOUT_UPDATE] :=
  ⟨by decide,
   (payload_posted_iff_update_applied id runningWorld "LAYOUT:5,5,20,20|A".toList
      { blenderX := 5, blenderY := 5, blenderWidth := 20, blenderHeight := 20,
        jsonData := "A".toList } (by decide)).1,
   by decide, by decide⟩

end BlenderWebUI
